import Mathlib

/-!
Verification of the swilite `prolog.py` handle-management layer.

The foreign SWI-Prolog engine is modelled as an explicit state (`Engine`):
a heap of term values indexed by term-ref handles, a record database, a
frame stack, and a trace of the foreign primitives invoked.  The Python
wrapper classes are modelled as functions threading this state, with
Python exceptions as `Except PyErr` results.
-/

namespace Swilite

/-- Engine-side Prolog term values.  `nil` is the atom named `[]`,
booleans are the atoms named `true` and `false`, and list cells are the
compound term with functor name `[|]` and arity 2, as in SWI-Prolog.
Variables carry an identity: the engine's structural equality compares
variables by identity, not by name.  Floats are carried opaquely by their
IEEE-754 bit pattern, which ctypes passes through unchanged. -/
inductive TermV where
  | var (id : Nat)
  | atom (name : String)
  | integer (n : Int)
  | flt (bits : Nat)
  | str (s : String)
  | ptr (addr : Nat)
  | compound (name : String) (args : List TermV)
deriving Repr, Inhabited

mutual
/-- Structural term equality, the engine's `==`/2: variables are equal only
to themselves (same identity), all other values are compared recursively. -/
def TermV.beq : TermV → TermV → Bool
  | .var i, .var j => i == j
  | .atom a, .atom b => a == b
  | .integer a, .integer b => a == b
  | .flt a, .flt b => a == b
  | .str a, .str b => a == b
  | .ptr a, .ptr b => a == b
  | .compound a as, .compound b bs => a == b && beqList as bs
  | _, _ => false

def beqList : List TermV → List TermV → Bool
  | [], [] => true
  | t :: ts, u :: us => TermV.beq t u && beqList ts us
  | _, _ => false
end

mutual
theorem TermV.beq_refl : ∀ t : TermV, t.beq t = true
  | .var _ => by simp [TermV.beq]
  | .atom _ => by simp [TermV.beq]
  | .integer _ => by simp [TermV.beq]
  | .flt _ => by simp [TermV.beq]
  | .str _ => by simp [TermV.beq]
  | .ptr _ => by simp [TermV.beq]
  | .compound _ args => by simp [TermV.beq, beqList_refl args]

theorem beqList_refl : ∀ ts : List TermV, beqList ts ts = true
  | [] => rfl
  | t :: ts => by simp [beqList, TermV.beq_refl t, beqList_refl ts]
end

mutual
/-- Whether a term value is ground (holds no variables);
`PL_is_ground` semantics. -/
def TermV.isGround : TermV → Bool
  | .var _ => false
  | .atom _ => true
  | .integer _ => true
  | .flt _ => true
  | .str _ => true
  | .ptr _ => true
  | .compound _ args => isGroundList args

def isGroundList : List TermV → Bool
  | [] => true
  | t :: ts => t.isGround && isGroundList ts
end

mutual
/-- Rename every variable identity by shifting it up by `base`; this is how
the model realizes the fresh-variable copy made by `PL_recorded`. -/
def TermV.renameVars (base : Nat) : TermV → TermV
  | .var i => .var (base + i)
  | .atom n => .atom n
  | .integer n => .integer n
  | .flt b => .flt b
  | .str s => .str s
  | .ptr a => .ptr a
  | .compound n args => .compound n (renameVarsList base args)

def renameVarsList (base : Nat) : List TermV → List TermV
  | [] => []
  | t :: ts => t.renameVars base :: renameVarsList base ts
end

mutual
theorem renameVars_of_isGround (base : Nat) :
    ∀ t : TermV, t.isGround = true → t.renameVars base = t
  | .var _, h => by simp [TermV.isGround] at h
  | .atom _, _ => rfl
  | .integer _, _ => rfl
  | .flt _, _ => rfl
  | .str _, _ => rfl
  | .ptr _, _ => rfl
  | .compound n args, h => by
      have hargs : isGroundList args = true := by
        simpa [TermV.isGround] using h
      simp [TermV.renameVars, renameVarsList_of_isGroundList base args hargs]

theorem renameVarsList_of_isGroundList (base : Nat) :
    ∀ ts : List TermV, isGroundList ts = true → renameVarsList base ts = ts
  | [], _ => rfl
  | t :: ts, h => by
      have h1 : t.isGround = true := by
        simp only [isGroundList, Bool.and_eq_true] at h; exact h.1
      have h2 : isGroundList ts = true := by
        simp only [isGroundList, Bool.and_eq_true] at h; exact h.2
      simp [renameVarsList, renameVars_of_isGround base t h1,
        renameVarsList_of_isGroundList base ts h2]
end

/-- Foreign-call events; the engine records every modelled `PL_` primitive
invocation so that "routes through / never calls / happens before" claims
can be stated over the call trace. -/
inductive FCall where
  | new_term_ref
  | new_term_refs (n : Nat)
  | put_term
  | copy_term_ref
  | cons_functor
  | cons_functor_v
  | cons_list
  | functor_arity
  | predicate_info
  | register_atom
  | call_predicate
  | open_query
  | next_solution
  | close_query
  | pl_exception
  | record
  | recorded
  | erase
  | open_foreign_frame
  | close_foreign_frame
  | discard_foreign_frame
  | rewind_foreign_frame
  | put_value (tag : Nat)
deriving Repr, DecidableEq

/-- One engine-side frame: the heap length at `PL_open_foreign_frame` time
(term refs past it are reclaimed on close) and a snapshot of the heap for
undoing bindings on discard/rewind. -/
structure EFrame where
  heapLen : Nat
  snapshot : List TermV
deriving Repr

/-- The foreign engine's state: term-ref heap (ref `i` holds `heap[i]`),
record database (`none` marks an entry the store cannot satisfy), frame
stack, a counter for fresh variable identities, the scripted outcome of
`PL_call_predicate`, and the trace of foreign calls made so far. -/
structure Engine where
  heap : List TermV
  records : List (Option TermV)
  frames : List EFrame
  nextVar : Nat
  callResult : Bool
  trace : List FCall
deriving Repr

/-- Value of term ref `r`. -/
def Engine.read (e : Engine) (r : Nat) : TermV :=
  e.heap.getD r default

/-- Overwrite term ref `r` (no effect if `r` is not an allocated ref). -/
def Engine.write (e : Engine) (r : Nat) (v : TermV) : Engine :=
  { e with heap := e.heap.set r v }

/-- Record a foreign call in the trace. -/
def Engine.emit (e : Engine) (c : FCall) : Engine :=
  { e with trace := e.trace ++ [c] }

/-- `PL_new_term_ref`: allocate one term ref holding a fresh variable. -/
def PL_new_term_ref (e : Engine) : Engine × Nat :=
  ({ e with heap := e.heap ++ [TermV.var e.nextVar],
            nextVar := e.nextVar + 1,
            trace := e.trace ++ [FCall.new_term_ref] },
   e.heap.length)

/-- `PL_new_term_refs(n)`: allocate `n` contiguous term refs, each holding a
fresh variable; returns the first handle. -/
def PL_new_term_refs (e : Engine) (n : Nat) : Engine × Nat :=
  ({ e with heap := e.heap ++ (List.range n).map (fun i => TermV.var (e.nextVar + i)),
            nextVar := e.nextVar + n,
            trace := e.trace ++ [FCall.new_term_refs n] },
   e.heap.length)

/-- `PL_put_term(dst, src)`: make ref `dst` hold `src`'s current value. -/
def PL_put_term (e : Engine) (dst src : Nat) : Engine :=
  (e.write dst (e.read src)).emit .put_term

/-- `PL_copy_term_ref(src)`: allocate a new term ref holding a copy of
`src`'s current value. -/
def PL_copy_term_ref (e : Engine) (src : Nat) : Engine × Nat :=
  ({ e with heap := e.heap ++ [e.read src],
            trace := e.trace ++ [FCall.copy_term_ref] },
   e.heap.length)

/-- The wrapper-side view of an interned functor: an immutable
(name, arity) pair (`Functor`, prolog.py:293). -/
structure PrologFunctor where
  name : String
  arity : Nat
deriving Repr, DecidableEq

/-- `PL_functor_arity`. -/
def PL_functor_arity (e : Engine) (f : PrologFunctor) : Engine × Nat :=
  (e.emit .functor_arity, f.arity)

/-- `PL_cons_functor(dst, functor, a1, ..., an)`: fixed-arity compound
construction from the values of the argument refs.  The real primitive
segfaults when passed more than 4 arguments (the documented reason
`Term.put_cons_functor` must not call it there); the model therefore proves
that the wrapper never emits this event on the high-arity path. -/
def PL_cons_functor (e : Engine) (dst : Nat) (f : PrologFunctor)
    (argRefs : List Nat) : Engine :=
  (e.write dst (TermV.compound f.name (argRefs.map e.read))).emit .cons_functor

/-- `PL_cons_functor_v(dst, functor, base)`: compound construction from the
contiguous refs `base, base+1, ..., base+arity-1`. -/
def PL_cons_functor_v (e : Engine) (dst : Nat) (f : PrologFunctor)
    (base : Nat) : Engine :=
  (e.write dst
    (TermV.compound f.name ((List.range f.arity).map (fun i => e.read (base + i))))).emit
    .cons_functor_v

/-- `PL_cons_list(dst, head, tail)`: build the list cell
`[head | tail]` from the values of `head` and `tail`. -/
def PL_cons_list (e : Engine) (dst head tail : Nat) : Engine :=
  (e.write dst (TermV.compound "[|]" [e.read head, e.read tail])).emit .cons_list

/-- Python-level exceptions raised by the wrapper layer. -/
inductive PyErr where
  | typeError (msg : String)
  | valueError (msg : String)
  | attributeError (msg : String)
  | indexError
  | overflowError
  | prologException (t : TermV)
  | prologMemoryError
  | prologCallFailed (msg : String)
deriving Repr

/-- The message built by `Term._require_success_expecting_type`
(prolog.py:672): "Term is not a/an <types>.", with "a"/"an" chosen by the
first letter and the types joined as "t1", "t1 or t2", or
"t1, ..., or tn". -/
def expectingTypeMsg (requiredTypes : List String) : String :=
  let type_str :=
    match requiredTypes with
    | [t] => t
    | [t1, t2] => t1 ++ " or " ++ t2
    | ts => String.intercalate ", " ts.dropLast ++ ", or " ++ ts.getLastD ""
  let article := if "aeiou".contains (type_str.toLower.front) then "an" else "a"
  "Term is not " ++ article ++ " " ++ type_str ++ "."

/-- `Term.put_variable` (prolog.py:884). -/
def Term.put_variable (e : Engine) (self : Nat) : Engine :=
  let e' := { e with nextVar := e.nextVar + 1 }
  (e'.write self (TermV.var e.nextVar)).emit (.put_value 0)

/-- `Term.put_atom_name` (prolog.py:904): `PL_put_atom_nchars` with the
utf-8 encoded name (the encode/decode pair is a bijection on Unicode
strings, so names are carried as strings). -/
def Term.put_atom_name (e : Engine) (self : Nat) (atom_name : String) : Engine :=
  (e.write self (TermV.atom atom_name)).emit (.put_value 1)

/-- `Term.put_bool` (prolog.py:897): puts the atom `true` or `false`. -/
def Term.put_bool (e : Engine) (self : Nat) (val : Bool) : Engine :=
  (e.write self (TermV.atom (if val then "true" else "false"))).emit (.put_value 2)

/-- `Term.put_string` (prolog.py:915): `PL_put_string_nchars` on the
encoded string. -/
def Term.put_string (e : Engine) (self : Nat) (string : String) : Engine :=
  (e.write self (TermV.str string)).emit (.put_value 3)

/-- `Term.put_integer` (prolog.py:928): `PL_put_int64`; ctypes rejects a
Python int that does not fit in a signed 64-bit integer. -/
def Term.put_integer (e : Engine) (self : Nat) (val : Int) :
    Engine × Except PyErr Unit :=
  if -(2 ^ 63) ≤ val ∧ val < 2 ^ 63 then
    ((e.write self (TermV.integer val)).emit (.put_value 4), .ok ())
  else
    (e, .error .overflowError)

/-- `Term.put_float` (prolog.py:938): `PL_put_float`; the double's bit
pattern passes through ctypes unchanged. -/
def Term.put_float (e : Engine) (self : Nat) (bits : Nat) : Engine :=
  (e.write self (TermV.flt bits)).emit (.put_value 5)

/-- `Term.put_pointer` (prolog.py:933). -/
def Term.put_pointer (e : Engine) (self : Nat) (address : Nat) : Engine :=
  (e.write self (TermV.ptr address)).emit (.put_value 6)

/-- `Term.put_nil` (prolog.py:969): the list terminator constant. -/
def Term.put_nil (e : Engine) (self : Nat) : Engine :=
  (e.write self (TermV.atom "[]")).emit (.put_value 7)

/-- `Term.put_term` (prolog.py:974). -/
def Term.put_term (e : Engine) (self : Nat) (term : Nat) : Engine :=
  PL_put_term e self term

/-- `Term.put_cons_list` (prolog.py:1034). -/
def Term.put_cons_list (e : Engine) (self head tail : Nat) : Engine :=
  PL_cons_list e self head tail

/-- `Term.get_atom_name` (prolog.py:696). -/
def Term.get_atom_name (e : Engine) (self : Nat) : Except PyErr String :=
  match e.read self with
  | .atom n => .ok n
  | _ => .error (.typeError (expectingTypeMsg ["atom"]))

/-- `Term.get_string_chars` (prolog.py:705). -/
def Term.get_string_chars (e : Engine) (self : Nat) : Except PyErr String :=
  match e.read self with
  | .str s => .ok s
  | _ => .error (.typeError (expectingTypeMsg ["string"]))

/-- `Term.get_integer` (prolog.py:725): `PL_get_int64` succeeds on an
integer (or an int-compatible float, kept symbolic here as failure since
the model does not interpret float payloads arithmetically). -/
def Term.get_integer (e : Engine) (self : Nat) : Except PyErr Int :=
  match e.read self with
  | .integer n => .ok n
  | _ => .error (.typeError (expectingTypeMsg ["integer", "int-compatible float"]))

/-- `Term.get_bool` (prolog.py:735): succeeds if the term is the atom
`true` or `false`. -/
def Term.get_bool (e : Engine) (self : Nat) : Except PyErr Bool :=
  match e.read self with
  | .atom "true" => .ok true
  | .atom "false" => .ok false
  | _ => .error (.typeError (expectingTypeMsg ["boolean"]))

/-- The result of `Term.get_float` (prolog.py:751): reading a float term
yields its bit pattern unchanged; reading an integer term yields the
engine's int-to-double conversion, kept symbolic. -/
inductive FloatRepr where
  | ofBits (bits : Nat)
  | ofInt (n : Int)
deriving Repr, DecidableEq

/-- `Term.get_float` (prolog.py:751): succeeds on a float or integer. -/
def Term.get_float (e : Engine) (self : Nat) : Except PyErr FloatRepr :=
  match e.read self with
  | .flt b => .ok (.ofBits b)
  | .integer n => .ok (.ofInt n)
  | _ => .error (.typeError (expectingTypeMsg ["float", "integer"]))

/-- `Term.get_compound_name_arity` (prolog.py:788): the functor name and
arity, failing on anything that is not a compound term. -/
def Term.get_compound_name_arity (e : Engine) (self : Nat) :
    Except PyErr (String × Nat) :=
  match e.read self with
  | .compound n args => .ok (n, args.length)
  | _ => .error (.typeError (expectingTypeMsg ["compound term"]))

/-- `Term.__eq__` (prolog.py:522): value equality delegated to the
engine's structural term-equality predicate `==`/2. -/
def Term.eq (e : Engine) (a b : Nat) : Bool :=
  (e.read a).beq (e.read b)

/-- The wrapper-side view of a `TermList` (prolog.py:1255): the base of an
owned contiguous run of term refs plus its fixed length; element `i` is
term ref `base + i`. -/
structure TermList where
  base : Nat
  length : Nat
deriving Repr, DecidableEq

/-- The loop of `TermList.from_terms` (prolog.py:1264):
`termlist[i].put_term(term)` for each term in order; the `__getitem__`
bounds check always passes because `i < len(terms)`. -/
def fromTermsLoop (base : Nat) : Engine → Nat → List Nat → Engine
  | e, _, [] => e
  | e, i, t :: ts => fromTermsLoop base (PL_put_term e (base + i) t) (i + 1) ts

/-- `TermList.from_terms` (prolog.py:1264): allocate a contiguous run of
`len(terms)` refs and copy each term's value into place. -/
def TermList.from_terms (e : Engine) (terms : List Nat) : Engine × TermList :=
  let (e1, base) := PL_new_term_refs e terms.length
  (fromTermsLoop base e1 0 terms, ⟨base, terms.length⟩)

/-- `Term.put_cons_functor_v` (prolog.py:1022). -/
def Term.put_cons_functor_v (e : Engine) (self : Nat) (functor : PrologFunctor)
    (args : TermList) : Engine :=
  PL_cons_functor_v e self functor args.base

/-- `Term.put_cons_functor` (prolog.py:998): checks the arity against the
argument count (the model's `args` are `Term` refs by typing, so the
isinstance check always passes), then routes through the vector path when
more than 4 arguments are given, and the fixed-arity primitive otherwise. -/
def Term.put_cons_functor (e : Engine) (self : Nat) (functor : PrologFunctor)
    (args : List Nat) : Engine × Except PyErr Unit :=
  let (e1, functor_arity) := PL_functor_arity e functor
  if functor_arity ≠ args.length then
    (e1, .error (.typeError
      ("Functor arity (" ++ toString functor_arity ++
       ") does not match number of arguments (" ++ toString args.length ++ ").")))
  else if args.length > 4 then
    let r := TermList.from_terms e1 args
    (Term.put_cons_functor_v r.1 self functor r.2, .ok ())
  else
    (PL_cons_functor e1 self functor args, .ok ())

theorem Engine.read_write_self (e : Engine) (r : Nat) (v : TermV)
    (h : r < e.heap.length) : (e.write r v).read r = v := by
  simp [Engine.read, Engine.write, List.getD, List.getElem?_set_self, h]

theorem Engine.read_write_ne (e : Engine) {r s : Nat} (v : TermV)
    (h : r ≠ s) : (e.write s v).read r = e.read r := by
  simp [Engine.read, Engine.write, List.getD, List.getElem?_set_ne (Ne.symm h)]

theorem Engine.write_heap_length (e : Engine) (r : Nat) (v : TermV) :
    (e.write r v).heap.length = e.heap.length := by
  simp [Engine.write]

theorem Engine.emit_read (e : Engine) (c : FCall) (r : Nat) :
    (e.emit c).read r = e.read r := rfl

theorem Engine.read_append_of_lt (e : Engine) (l : List TermV) {r : Nat}
    (h : r < e.heap.length) :
    (e.heap ++ l).getD r default = e.read r := by
  simp [Engine.read, List.getD, List.getElem?_append_left h]

theorem PL_put_term_heap_length (e : Engine) (dst src : Nat) :
    (PL_put_term e dst src).heap.length = e.heap.length := by
  simp [PL_put_term, Engine.emit, Engine.write]

theorem PL_put_term_records (e : Engine) (dst src : Nat) :
    (PL_put_term e dst src).records = e.records := rfl

theorem PL_put_term_read_ne (e : Engine) {r : Nat} (dst src : Nat)
    (h : r ≠ dst) : (PL_put_term e dst src).read r = e.read r := by
  simp [PL_put_term, Engine.emit_read, Engine.read_write_ne e _ h]

theorem PL_put_term_read_self (e : Engine) (dst src : Nat)
    (h : dst < e.heap.length) :
    (PL_put_term e dst src).read dst = e.read src := by
  simp [PL_put_term, Engine.emit_read, Engine.read_write_self e _ _ h]

theorem PL_put_term_trace (e : Engine) (dst src : Nat) :
    (PL_put_term e dst src).trace = e.trace ++ [FCall.put_term] := rfl

theorem fromTermsLoop_heap_length (base : Nat) :
    ∀ (ts : List Nat) (e : Engine) (i : Nat),
      (fromTermsLoop base e i ts).heap.length = e.heap.length
  | [], _, _ => rfl
  | t :: ts, e, i => by
      rw [fromTermsLoop, fromTermsLoop_heap_length base ts, PL_put_term_heap_length]

theorem fromTermsLoop_records (base : Nat) :
    ∀ (ts : List Nat) (e : Engine) (i : Nat),
      (fromTermsLoop base e i ts).records = e.records
  | [], _, _ => rfl
  | t :: ts, e, i => by
      rw [fromTermsLoop, fromTermsLoop_records base ts, PL_put_term_records]

theorem fromTermsLoop_trace (base : Nat) :
    ∀ (ts : List Nat) (e : Engine) (i : Nat),
      (fromTermsLoop base e i ts).trace
        = e.trace ++ List.replicate ts.length FCall.put_term
  | [], _, _ => by simp [fromTermsLoop]
  | t :: ts, e, i => by
      rw [fromTermsLoop, fromTermsLoop_trace base ts, PL_put_term_trace]
      simp [List.replicate_succ]

theorem fromTermsLoop_read_lt (base : Nat) :
    ∀ (ts : List Nat) (e : Engine) (i r : Nat), r < base + i →
      (fromTermsLoop base e i ts).read r = e.read r
  | [], _, _, _, _ => rfl
  | t :: ts, e, i, r, hr => by
      rw [fromTermsLoop,
        fromTermsLoop_read_lt base ts _ (i + 1) r (by omega),
        PL_put_term_read_ne e _ _ (by omega)]

theorem fromTermsLoop_read_get (base : Nat) :
    ∀ (ts : List Nat) (e : Engine) (i j : Nat) (hj : j < ts.length),
      (∀ t ∈ ts, t < base) → base + i + ts.length ≤ e.heap.length →
      (fromTermsLoop base e i ts).read (base + i + j)
        = e.read (ts.get ⟨j, hj⟩)
  | t :: ts, e, i, 0, _, hts, hlen => by
      rw [fromTermsLoop]
      have h1 : base + i + 0 < base + (i + 1) := by omega
      rw [fromTermsLoop_read_lt base ts _ (i + 1) _ h1]
      have h2 : base + i + 0 = base + i := by omega
      rw [h2, PL_put_term_read_self e _ _ (by simp at hlen; omega)]
      simp
  | t :: ts, e, i, j + 1, hj, hts, hlen => by
      rw [fromTermsLoop]
      have h1 : base + i + (j + 1) = base + (i + 1) + j := by omega
      have hj2 : j < ts.length := by simpa using Nat.lt_of_succ_lt_succ hj
      rw [h1, fromTermsLoop_read_get base ts _ (i + 1) j hj2
        (fun u hu => hts u (List.mem_cons_of_mem t hu))
        (by rw [PL_put_term_heap_length]; simp at hlen; omega)]
      have hget : ts.get ⟨j, hj2⟩ < base :=
        hts _ (List.mem_cons_of_mem t (ts.get_mem j hj2))
      rw [PL_put_term_read_ne e _ _ (by omega)]
      simp

/-- Summary of the observable behaviour of `TermList.from_terms` on valid
term refs: a fresh contiguous run at the old heap top, whose elements hold
copies of the argument values, leaving existing refs and records alone. -/
theorem from_terms_spec (e : Engine) (terms : List Nat)
    (hts : ∀ t ∈ terms, t < e.heap.length) :
    (TermList.from_terms e terms).2.base = e.heap.length ∧
    (TermList.from_terms e terms).2.length = terms.length ∧
    (TermList.from_terms e terms).1.heap.length = e.heap.length + terms.length ∧
    (∀ r, r < e.heap.length → (TermList.from_terms e terms).1.read r = e.read r) ∧
    (∀ j (hj : j < terms.length),
      (TermList.from_terms e terms).1.read (e.heap.length + j)
        = e.read (terms.get ⟨j, hj⟩)) ∧
    (TermList.from_terms e terms).1.trace
      = e.trace ++ FCall.new_term_refs terms.length ::
          List.replicate terms.length FCall.put_term ∧
    (TermList.from_terms e terms).1.records = e.records := by
  unfold TermList.from_terms PL_new_term_refs
  dsimp only
  set e1 : Engine :=
    { e with heap := e.heap ++ (List.range terms.length).map (fun i => TermV.var (e.nextVar + i)),
             nextVar := e.nextVar + terms.length,
             trace := e.trace ++ [FCall.new_term_refs terms.length] } with he1
  have he1len : e1.heap.length = e.heap.length + terms.length := by simp [he1]
  refine ⟨rfl, rfl, ?_, ?_, ?_, ?_, ?_⟩
  · rw [fromTermsLoop_heap_length, he1len]
  · intro r hr
    have h1 : r < e.heap.length + 0 := by omega
    rw [fromTermsLoop_read_lt _ _ _ _ _ h1]
    exact Engine.read_append_of_lt e _ hr
  · intro j hj
    have h0 : e.heap.length + j = e.heap.length + 0 + j := by omega
    rw [h0, fromTermsLoop_read_get _ _ _ 0 j hj (fun t ht => hts t ht) (by omega)]
    exact Engine.read_append_of_lt e _ (hts _ (terms.get_mem j hj))
  · rw [fromTermsLoop_trace]
    simp [he1]
  · rw [fromTermsLoop_records]

/-- C1: For every Functor `f` of arity `n` and every sequence of `n` term
arguments with `n > 4` (valid term refs), `Term.put_cons_functor` succeeds
and constructs the compound term through the vector-argument path: the
foreign calls it makes never include the fixed-arity construction
primitive `PL_cons_functor`, but do include `PL_cons_functor_v` over a
freshly built `TermList`; the resulting term holds the compound of `f`'s
name applied to the argument values, and `get_compound_name_arity()`
returns `f`'s name and `n`.  In particular this holds for `n = 5` and
`n = 8` (see the witness). -/
theorem c1_put_cons_functor_high_arity (e : Engine) (self : Nat)
    (f : PrologFunctor) (args : List Nat)
    (harity : f.arity = args.length) (hbig : 4 < args.length)
    (hself : self < e.heap.length) (hargs : ∀ a ∈ args, a < e.heap.length) :
    (Term.put_cons_functor e self f args).2 = .ok () ∧
    FCall.cons_functor ∉
      (Term.put_cons_functor e self f args).1.trace.drop e.trace.length ∧
    FCall.cons_functor_v ∈
      (Term.put_cons_functor e self f args).1.trace.drop e.trace.length ∧
    (Term.put_cons_functor e self f args).1.read self
      = TermV.compound f.name (args.map e.read) ∧
    Term.get_compound_name_arity (Term.put_cons_functor e self f args).1 self
      = .ok (f.name, args.length) := by
  have hne : ¬ f.arity ≠ args.length := by omega
  have hstep : Term.put_cons_functor e self f args
      = (Term.put_cons_functor_v
          (TermList.from_terms (e.emit .functor_arity) args).1 self f
          (TermList.from_terms (e.emit .functor_arity) args).2, .ok ()) := by
    unfold Term.put_cons_functor PL_functor_arity
    dsimp only
    rw [if_neg hne, if_pos hbig]
  rw [hstep]
  set e1 : Engine := e.emit .functor_arity with he1
  have he1heap : e1.heap = e.heap := rfl
  have he1read : ∀ r, e1.read r = e.read r := fun _ => rfl
  have hargs1 : ∀ a ∈ args, a < e1.heap.length := by rw [he1heap]; exact hargs
  obtain ⟨hbase, hlen, hheaplen, hreadlo, hreadel, htrace, -⟩ :=
    from_terms_spec e1 args hargs1
  set e2 : Engine := (TermList.from_terms e1 args).1 with he2
  set lst : TermList := (TermList.from_terms e1 args).2 with hlst
  -- the argument vector read by PL_cons_functor_v equals the original values
  have hvec : (List.range f.arity).map (fun i => e2.read (lst.base + i))
      = args.map e.read := by
    apply List.ext_get
    · simp [harity]
    · intro j h1 h2
      have hj : j < args.length := by simpa [harity] using h1
      simp only [List.get_eq_getElem, List.getElem_map, List.getElem_range]
      have hel := hreadel j hj
      rw [hbase, hel, he1read]
      simp [List.get_eq_getElem]
  have hself2 : self < e2.heap.length := by
    rw [hheaplen, he1heap]; omega
  have hreadself : (Term.put_cons_functor_v e2 self f lst).read self
      = TermV.compound f.name (args.map e.read) := by
    unfold Term.put_cons_functor_v PL_cons_functor_v
    rw [Engine.emit_read, Engine.read_write_self _ _ _ hself2, hvec]
  have htrace2 : (Term.put_cons_functor_v e2 self f lst).trace
      = e.trace ++ FCall.functor_arity :: FCall.new_term_refs args.length ::
          (List.replicate args.length FCall.put_term ++ [FCall.cons_functor_v]) := by
    unfold Term.put_cons_functor_v PL_cons_functor_v
    show (e2.write self _).trace ++ [FCall.cons_functor_v] = _
    have hw : (e2.write self (TermV.compound f.name
        ((List.range f.arity).map fun i => e2.read (lst.base + i)))).trace
        = e2.trace := rfl
    rw [hw, htrace]
    simp [he1, Engine.emit]
  refine ⟨rfl, ?_, ?_, hreadself, ?_⟩
  · rw [htrace2, List.drop_left]
    simp [List.mem_replicate]
  · rw [htrace2, List.drop_left]
    simp
  · unfold Term.get_compound_name_arity
    rw [hreadself]
    simp

/-- A small concrete engine used to instantiate theorems: ten allocated
term refs, empty records and frames. -/
def engA : Engine :=
  { heap := List.replicate 10 default, records := [], frames := [],
    nextVar := 10, callResult := true, trace := [] }

/-- Witness for C1: concrete runs at arity 5 and arity 8. -/
theorem c1_put_cons_functor_high_arity_witness :
    ((⟨"foo", 5⟩ : PrologFunctor).arity = ([0, 1, 2, 3, 4] : List Nat).length ∧
     4 < ([0, 1, 2, 3, 4] : List Nat).length ∧
     (Term.put_cons_functor engA 9 ⟨"foo", 5⟩ [0, 1, 2, 3, 4]).2 = .ok () ∧
     FCall.cons_functor ∉
       (Term.put_cons_functor engA 9 ⟨"foo", 5⟩ [0, 1, 2, 3, 4]).1.trace.drop
         engA.trace.length ∧
     FCall.cons_functor_v ∈
       (Term.put_cons_functor engA 9 ⟨"foo", 5⟩ [0, 1, 2, 3, 4]).1.trace.drop
         engA.trace.length ∧
     Term.get_compound_name_arity
       (Term.put_cons_functor engA 9 ⟨"foo", 5⟩ [0, 1, 2, 3, 4]).1 9
       = .ok ("foo", 5)) ∧
    ((Term.put_cons_functor engA 9 ⟨"foo8", 8⟩ [0, 1, 2, 3, 4, 5, 6, 7]).2
       = .ok () ∧
     Term.get_compound_name_arity
       (Term.put_cons_functor engA 9 ⟨"foo8", 8⟩ [0, 1, 2, 3, 4, 5, 6, 7]).1 9
       = .ok ("foo8", 8)) := by
  have h5 := c1_put_cons_functor_high_arity engA 9 ⟨"foo", 5⟩ [0, 1, 2, 3, 4]
    rfl (by decide) (by decide) (by decide)
  have h8 := c1_put_cons_functor_high_arity engA 9 ⟨"foo8", 8⟩
    [0, 1, 2, 3, 4, 5, 6, 7] rfl (by decide) (by decide) (by decide)
  exact ⟨⟨rfl, by decide, h5.1, h5.2.1, h5.2.2.1, h5.2.2.2.2⟩,
    ⟨h8.1, h8.2.2.2.2⟩⟩

/-- `Term.from_nil`: generated constructor (prolog.py:1232), a fresh
variable term to which `put_nil` is applied. -/
def Term.from_nil (e : Engine) : Engine × Nat :=
  let r := PL_new_term_ref e
  (Term.put_nil r.1 r.2, r.2)

/-- `Term.from_cons_list`: generated constructor (prolog.py:1232), a fresh
variable term to which `put_cons_list` is applied. -/
def Term.from_cons_list (e : Engine) (head tail : Nat) : Engine × Nat :=
  let r := PL_new_term_ref e
  (Term.put_cons_list r.1 r.2 head tail, r.2)

/-- The while loop of `Term.put_list_terms` (prolog.py:1052): pop the last
element of the Python list and cons it onto the accumulated tail until the
list is empty.  Returns the final engine, the final state of the caller's
Python list, and the tail term ref. -/
def putListTermsLoop (e : Engine) (ts : List Nat) (tailRef : Nat) :
    Engine × List Nat × Nat :=
  if h : ts = [] then (e, ts, tailRef)
  else
    let last := ts.getLast h
    let r := Term.from_cons_list e last tailRef
    putListTermsLoop r.1 ts.dropLast r.2
termination_by ts.length
decreasing_by
  have hpos : 0 < ts.length := List.length_pos.mpr h
  simp [List.length_dropLast]
  omega

/-- `Term.put_list_terms` (prolog.py:1039).  `terms.pop(0)` removes and
returns the first element (IndexError on an empty list is caught and the
term is set to nil); the loop then pops from the back, consing onto a nil
tail.  Returns the final engine and the final state of the caller's
(mutated) Python list. -/
def Term.put_list_terms (e : Engine) (self : Nat) (terms : List Nat) :
    Engine × List Nat :=
  match terms with
  | [] => (Term.put_nil e self, [])
  | head :: rest =>
    let r0 := Term.from_nil e
    let r1 := putListTermsLoop r0.1 rest r0.2
    (Term.put_cons_list r1.1 self head r1.2.2, r1.2.1)

/-- The Prolog list value holding `vs`, in order. -/
def listTermV (vs : List TermV) : TermV :=
  vs.foldr (fun v acc => TermV.compound "[|]" [v, acc]) (TermV.atom "[]")

theorem PL_new_term_ref_read_of_lt (e : Engine) {r : Nat}
    (h : r < e.heap.length) : (PL_new_term_ref e).1.read r = e.read r := by
  show (e.heap ++ [TermV.var e.nextVar]).getD r default = e.read r
  exact Engine.read_append_of_lt e _ h

theorem from_nil_spec (e : Engine) :
    (Term.from_nil e).2 = e.heap.length ∧
    (Term.from_nil e).1.heap.length = e.heap.length + 1 ∧
    (∀ r, r < e.heap.length → (Term.from_nil e).1.read r = e.read r) ∧
    (Term.from_nil e).1.read e.heap.length = TermV.atom "[]" := by
  refine ⟨rfl, by simp [Term.from_nil, Term.put_nil, PL_new_term_ref,
    Engine.emit, Engine.write], ?_, ?_⟩
  · intro r hr
    show ((PL_new_term_ref e).1.write e.heap.length _).read r = e.read r
    rw [Engine.read_write_ne _ _ (by omega)]
    exact Engine.read_append_of_lt e _ hr
  · show ((PL_new_term_ref e).1.write e.heap.length _).read e.heap.length
      = TermV.atom "[]"
    rw [Engine.read_write_self]
    simp [PL_new_term_ref]

theorem from_cons_list_spec (e : Engine) (head tail : Nat)
    (hh : head < e.heap.length) (ht : tail < e.heap.length) :
    (Term.from_cons_list e head tail).2 = e.heap.length ∧
    (Term.from_cons_list e head tail).1.heap.length = e.heap.length + 1 ∧
    (∀ r, r < e.heap.length →
      (Term.from_cons_list e head tail).1.read r = e.read r) ∧
    (Term.from_cons_list e head tail).1.read e.heap.length
      = TermV.compound "[|]" [e.read head, e.read tail] := by
  refine ⟨rfl, by simp [Term.from_cons_list, Term.put_cons_list, PL_cons_list,
    PL_new_term_ref, Engine.emit, Engine.write], ?_, ?_⟩
  · intro r hr
    show ((PL_new_term_ref e).1.write e.heap.length _).read r = e.read r
    rw [Engine.read_write_ne _ _ (by omega)]
    exact Engine.read_append_of_lt e _ hr
  · show ((PL_new_term_ref e).1.write e.heap.length _).read e.heap.length = _
    rw [Engine.read_write_self]
    · rw [PL_new_term_ref_read_of_lt e hh, PL_new_term_ref_read_of_lt e ht]
    · simp [PL_new_term_ref]

theorem foldr_cons_read_congr (e1 e2 : Engine) (X : TermV) :
    ∀ ts : List Nat, (∀ t ∈ ts, e1.read t = e2.read t) →
      ts.foldr (fun t acc => TermV.compound "[|]" [e1.read t, acc]) X
        = ts.foldr (fun t acc => TermV.compound "[|]" [e2.read t, acc]) X
  | [], _ => rfl
  | t :: ts, h => by
      simp only [List.foldr_cons]
      rw [h t (List.mem_cons_self t ts),
        foldr_cons_read_congr e1 e2 X ts
          (fun u hu => h u (List.mem_cons_of_mem t hu))]

theorem putListTermsLoop_spec :
    ∀ (n : Nat) (e : Engine) (ts : List Nat) (tailRef : Nat),
      ts.length ≤ n →
      (∀ t ∈ ts, t < e.heap.length) → tailRef < e.heap.length →
      (putListTermsLoop e ts tailRef).2.1 = [] ∧
      (putListTermsLoop e ts tailRef).2.2
        < (putListTermsLoop e ts tailRef).1.heap.length ∧
      (putListTermsLoop e ts tailRef).1.read (putListTermsLoop e ts tailRef).2.2
        = ts.foldr (fun t acc => TermV.compound "[|]" [e.read t, acc])
            (e.read tailRef) ∧
      (∀ r, r < e.heap.length →
        (putListTermsLoop e ts tailRef).1.read r = e.read r) ∧
      e.heap.length ≤ (putListTermsLoop e ts tailRef).1.heap.length := by
  intro n
  induction n with
  | zero =>
    intro e ts tailRef hlen hts htail
    have hts0 : ts = [] := List.length_eq_zero.mp (Nat.le_zero.mp hlen)
    subst hts0
    rw [putListTermsLoop]
    simp [htail]
  | succ n ih =>
    intro e ts tailRef hlen hts htail
    by_cases h : ts = []
    · subst h
      rw [putListTermsLoop]
      simp [htail]
    · rw [putListTermsLoop, dif_neg h]
      dsimp only
      have hlast : ts.getLast h < e.heap.length :=
        hts _ (List.getLast_mem h)
      obtain ⟨hc0, hclen, hcpres, hcnew⟩ :=
        from_cons_list_spec e (ts.getLast h) tailRef hlast htail
      rw [hc0]
      set eC : Engine := (Term.from_cons_list e (ts.getLast h) tailRef).1
        with heC
      have hdrop : ∀ t ∈ ts.dropLast, t < eC.heap.length := by
        intro t htmem
        have : t < e.heap.length := hts _ (List.dropLast_subset ts htmem)
        omega
      have hnewref : e.heap.length < eC.heap.length := by omega
      obtain ⟨hrem, htl, hread, hpres, hmono⟩ :=
        ih eC ts.dropLast e.heap.length
          (by have := List.length_pos.mpr h
              simp [List.length_dropLast]; omega)
          hdrop hnewref
      refine ⟨hrem, htl, ?_, ?_, by omega⟩
      · rw [hread]
        have hfix : ts.dropLast.foldr
            (fun t acc => TermV.compound "[|]" [eC.read t, acc])
            (eC.read e.heap.length)
            = ts.dropLast.foldr
                (fun t acc => TermV.compound "[|]" [e.read t, acc])
                (eC.read e.heap.length) :=
          foldr_cons_read_congr eC e _ ts.dropLast
            (fun t htmem => hcpres t (hts _ (List.dropLast_subset ts htmem)))
        rw [hfix, hcnew]
        conv_rhs => rw [(List.dropLast_append_getLast h).symm]
        rw [List.foldr_append]
        simp
      · intro r hr
        rw [hpres r (by omega), hcpres r hr]

/-- C10: `Term.put_list_terms` consumes its Python list argument: for every
list of (valid) term refs — including the empty list, for which the term is
set to nil — after the call the caller's list object has been emptied,
while the constructed term holds the Prolog list of the original element
values in their original order. -/
theorem c10_put_list_terms_consumes (e : Engine) (self : Nat)
    (terms : List Nat) (hself : self < e.heap.length)
    (hterms : ∀ t ∈ terms, t < e.heap.length) :
    (Term.put_list_terms e self terms).2 = [] ∧
    (Term.put_list_terms e self terms).1.read self
      = listTermV (terms.map e.read) := by
  match terms with
  | [] =>
    refine ⟨rfl, ?_⟩
    show (e.write self (TermV.atom "[]")).read self = _
    rw [Engine.read_write_self _ _ _ hself]
    rfl
  | head :: rest =>
    obtain ⟨hnil0, hnlen, hnpres, hnnew⟩ := from_nil_spec e
    set e0 : Engine := (Term.from_nil e).1 with he0
    have hrest0 : ∀ t ∈ rest, t < e0.heap.length := by
      intro t htmem
      have := hterms t (List.mem_cons_of_mem head htmem)
      omega
    obtain ⟨hrem, htl, hread, hpres, hmono⟩ :=
      putListTermsLoop_spec rest.length e0 rest e.heap.length le_rfl hrest0
        (by omega)
    refine ⟨?_, ?_⟩
    · show (putListTermsLoop e0 rest (Term.from_nil e).2).2.1 = []
      rw [hnil0]; exact hrem
    · show (Term.put_cons_list
        (putListTermsLoop e0 rest (Term.from_nil e).2).1 self head
        (putListTermsLoop e0 rest (Term.from_nil e).2).2.2).read self = _
      rw [hnil0]
      set r1 : Engine × List Nat × Nat := putListTermsLoop e0 rest e.heap.length
        with hr1
      show (r1.1.write self _).read self = _
      rw [Engine.read_write_self _ _ _ (by
        have hh := hself
        omega)]
      have hheadv : r1.1.read head = e.read head := by
        rw [hpres head (by have := hterms head (List.mem_cons_self head rest); omega),
          hnpres head (hterms head (List.mem_cons_self head rest))]
      have htailv : r1.1.read r1.2.2 = listTermV (rest.map e.read) := by
        rw [hread]
        have hfix := foldr_cons_read_congr e0 e (e0.read e.heap.length) rest
          (fun t htmem => hnpres t (hterms t (List.mem_cons_of_mem head htmem)))
        rw [hfix, hnnew, listTermV, List.foldr_map]
      rw [hheadv, htailv]
      rfl

/-- Witness for C10: a concrete three-element list is emptied and the term
holds the list of its values in order; a concrete empty list sets nil. -/
theorem c10_put_list_terms_consumes_witness :
    (9 < engA.heap.length ∧
     (Term.put_list_terms engA 9 [0, 1, 2]).2 = [] ∧
     (Term.put_list_terms engA 9 [0, 1, 2]).1.read 9
       = listTermV ([0, 1, 2].map engA.read)) ∧
    ((Term.put_list_terms engA 9 ([] : List Nat)).2 = [] ∧
     (Term.put_list_terms engA 9 ([] : List Nat)).1.read 9
       = listTermV ([])) := by
  have h3 := c10_put_list_terms_consumes engA 9 [0, 1, 2] (by decide) (by decide)
  have h0 := c10_put_list_terms_consumes engA 9 [] (by decide) (by decide)
  exact ⟨⟨by decide, h3.1, h3.2⟩, ⟨h0.1, h0.2⟩⟩

/-- The `put_*` methods of `Term` (prolog.py:884–1054), in the
alphabetical order produced by `dir(Term)`. -/
def termPutMethods : List String :=
  ["put_atom", "put_atom_name", "put_bool", "put_cons_functor",
   "put_cons_functor_v", "put_cons_list", "put_float", "put_functor",
   "put_integer", "put_list", "put_list_chars", "put_list_terms",
   "put_nil", "put_parsed", "put_pointer", "put_string", "put_term",
   "put_variable"]

/-- The module-level generation loop (prolog.py:1232–1248) together with
`_add_from_method_to_class` (prolog.py:1214), at the attribute-name level:
for each `put_<X>` method in order, add an attribute `from_<X>` to the
class unless one already exists (in which case the AttributeError is
caught and the method is skipped).  `existing` is the set of `from_*`
attributes defined directly on the class (`from_term`). -/
def addFromMethods (existing : List String) (putNames : List String) :
    List String :=
  putNames.foldl (fun attrs putName =>
    let fromName := "from_" ++ putName.drop 4
    if fromName ∈ attrs then attrs else attrs ++ [fromName]) existing

/-- `Term.from_atom_name`: generated constructor, a fresh variable term to
which `put_atom_name` is applied. -/
def Term.from_atom_name (e : Engine) (atom_name : String) : Engine × Nat :=
  let r := PL_new_term_ref e
  (Term.put_atom_name r.1 r.2 atom_name, r.2)

/-- `Term.from_string`: generated constructor. -/
def Term.from_string (e : Engine) (string : String) : Engine × Nat :=
  let r := PL_new_term_ref e
  (Term.put_string r.1 r.2 string, r.2)

/-- `Term.from_bool`: generated constructor. -/
def Term.from_bool (e : Engine) (val : Bool) : Engine × Nat :=
  let r := PL_new_term_ref e
  (Term.put_bool r.1 r.2 val, r.2)

/-- `Term.from_float`: generated constructor. -/
def Term.from_float (e : Engine) (bits : Nat) : Engine × Nat :=
  let r := PL_new_term_ref e
  (Term.put_float r.1 r.2 bits, r.2)

/-- `Term.from_integer`: generated constructor; propagates the ctypes
overflow error of `put_integer` when the value does not fit in int64. -/
def Term.from_integer (e : Engine) (val : Int) : Engine × Except PyErr Nat :=
  let r := PL_new_term_ref e
  let p := Term.put_integer r.1 r.2 val
  (p.1, p.2.map (fun _ => r.2))

/-- `Term.from_term` (prolog.py:978): the one explicit classmethod (the
generation loop skips `put_term` because this attribute already exists);
a copy via `PL_copy_term_ref`: a fresh term ref holding the source's
current value, observably the same as a fresh variable term to which
`put_term` is applied. -/
def Term.from_term (e : Engine) (term : Nat) : Engine × Nat :=
  PL_copy_term_ref e term

theorem read_write_emit_self (e : Engine) (r : Nat) (v : TermV) (c : FCall)
    (h : r < e.heap.length) : ((e.write r v).emit c).read r = v := by
  rw [Engine.emit_read, Engine.read_write_self _ _ _ h]

theorem PL_new_term_ref_heap_length (e : Engine) :
    (PL_new_term_ref e).1.heap.length = e.heap.length + 1 := by
  simp [PL_new_term_ref]

/-- C6: every `put_<X>` mutator of `Term` has a `from_<X>` counterpart
produced by the generation loop (with `from_term` pre-existing), and the
generated constructors round-trip with the matching accessor for each
supported primitive type: atom name, integer (any int64 value), float,
string, and bool.  `from_term` copies the source's value into a fresh
term. -/
theorem c6_from_put_pairing_and_roundtrips (e : Engine) (s t2 : String)
    (n : Int) (b : Bool) (bits t : Nat) :
    (∀ p ∈ termPutMethods,
      ("from_" ++ p.drop 4) ∈ addFromMethods ["from_term"] termPutMethods) ∧
    Term.get_atom_name (Term.from_atom_name e s).1 (Term.from_atom_name e s).2
      = .ok s ∧
    Term.get_string_chars (Term.from_string e t2).1 (Term.from_string e t2).2
      = .ok t2 ∧
    Term.get_bool (Term.from_bool e b).1 (Term.from_bool e b).2 = .ok b ∧
    Term.get_float (Term.from_float e bits).1 (Term.from_float e bits).2
      = .ok (.ofBits bits) ∧
    (-(2 ^ 63) ≤ n ∧ n < 2 ^ 63 →
      (Term.from_integer e n).2 = .ok e.heap.length ∧
      Term.get_integer (Term.from_integer e n).1 e.heap.length = .ok n) ∧
    (Term.from_term e t).1.read (Term.from_term e t).2 = e.read t := by
  have hlt : e.heap.length < (PL_new_term_ref e).1.heap.length := by
    rw [PL_new_term_ref_heap_length]; omega
  refine ⟨by decide, ?_, ?_, ?_, ?_, ?_, ?_⟩
  · have hv : (Term.from_atom_name e s).1.read (Term.from_atom_name e s).2
        = TermV.atom s := read_write_emit_self _ _ _ _ hlt
    unfold Term.get_atom_name
    rw [hv]
  · have hv : (Term.from_string e t2).1.read (Term.from_string e t2).2
        = TermV.str t2 := read_write_emit_self _ _ _ _ hlt
    unfold Term.get_string_chars
    rw [hv]
  · have hv : (Term.from_bool e b).1.read (Term.from_bool e b).2
        = TermV.atom (if b then "true" else "false") :=
      read_write_emit_self _ _ _ _ hlt
    unfold Term.get_bool
    rw [hv]
    cases b <;> rfl
  · have hv : (Term.from_float e bits).1.read (Term.from_float e bits).2
        = TermV.flt bits := read_write_emit_self _ _ _ _ hlt
    unfold Term.get_float
    rw [hv]
  · intro hb
    have hstep : Term.put_integer (PL_new_term_ref e).1 e.heap.length n
        = (((PL_new_term_ref e).1.write e.heap.length
            (TermV.integer n)).emit (.put_value 4), .ok ()) := by
      unfold Term.put_integer
      rw [if_pos hb]
    constructor
    · show (Term.put_integer (PL_new_term_ref e).1 e.heap.length n).2.map _
        = _
      rw [hstep]
      rfl
    · show Term.get_integer
        (Term.put_integer (PL_new_term_ref e).1 e.heap.length n).1
        e.heap.length = _
      rw [hstep]
      unfold Term.get_integer
      rw [read_write_emit_self _ _ _ _ hlt]
  · show (e.heap ++ [e.read t]).getD e.heap.length default = e.read t
    simp [List.getD, List.getElem?_append_right (Nat.le_refl e.heap.length)]

/-- Witness for C6: the round trips at concrete values. -/
theorem c6_from_put_pairing_and_roundtrips_witness :
    (∀ p ∈ termPutMethods,
      ("from_" ++ p.drop 4) ∈ addFromMethods ["from_term"] termPutMethods) ∧
    Term.get_atom_name (Term.from_atom_name engA "foo").1
      (Term.from_atom_name engA "foo").2 = .ok "foo" ∧
    (-(2 ^ 63) ≤ (42 : Int) ∧ (42 : Int) < 2 ^ 63) ∧
    ((Term.from_integer engA 42).2 = .ok engA.heap.length ∧
     Term.get_integer (Term.from_integer engA 42).1 engA.heap.length
       = .ok 42) ∧
    Term.get_bool (Term.from_bool engA true).1 (Term.from_bool engA true).2
      = .ok true := by
  have h := c6_from_put_pairing_and_roundtrips engA "foo" "bar" 42 true 7 0
  exact ⟨h.1, h.2.1, by norm_num, h.2.2.2.2.2.1 (by norm_num), h.2.2.2.1⟩

/-- `TemporaryHandleMixIn` (prolog.py:216): a handle paired with a
liveness flag; `_handle` reads go through `_get_handle`. -/
structure TemporaryHandle where
  handle : Nat
  valid : Bool
deriving Repr, DecidableEq

/-- `TemporaryHandleMixIn._get_handle` (prolog.py:223): raises
AttributeError once the flag is cleared. -/
def TemporaryHandle.get_handle (h : TemporaryHandle) : Except PyErr Nat :=
  if h.valid then .ok h.handle
  else .error (.attributeError "handle been invalidated")

/-- `TemporaryHandleMixIn._set_handle` (prolog.py:228): stores a handle,
leaving the liveness flag alone. -/
def TemporaryHandle.set_handle (h : TemporaryHandle) (v : Nat) :
    TemporaryHandle :=
  { h with handle := v }

/-- `TemporaryHandleMixIn._invalidate` (prolog.py:233). -/
def TemporaryHandle.invalidate (h : TemporaryHandle) : TemporaryHandle :=
  { h with valid := false }

/-- The Python object store for `TemporaryTerm` objects, indexed by object
id; invalidating a shared object is modelled by updating the store. -/
structure PyHeap where
  temps : List TemporaryHandle
deriving Repr, DecidableEq

/-- Look up a `TemporaryTerm` object (out-of-store ids read as an already
invalidated handle). -/
def PyHeap.temp (w : PyHeap) (oid : Nat) : TemporaryHandle :=
  w.temps.getD oid ⟨0, false⟩

/-- One `term._invalidate()` call on a stored object. -/
def PyHeap.invalidateAt (w : PyHeap) (oid : Nat) : PyHeap :=
  ⟨w.temps.set oid ((w.temps.getD oid ⟨0, false⟩).invalidate)⟩

/-- The invalidation loops `_invalidate_bound_temporary_terms`
(prolog.py:1464) and `_invalidate_associated_terms` (prolog.py:1626):
invalidate every tracked object in order. -/
def PyHeap.invalidateAll (w : PyHeap) (oids : List Nat) : PyHeap :=
  oids.foldl PyHeap.invalidateAt w

theorem PyHeap.temp_invalidateAt (w : PyHeap) (oid o : Nat) :
    (w.invalidateAt oid).temp o
      = if o = oid ∧ o < w.temps.length then (w.temp o).invalidate
        else w.temp o := by
  unfold PyHeap.temp PyHeap.invalidateAt
  by_cases heq : o = oid
  · subst heq
    by_cases hlt : o < w.temps.length
    · simp [List.getD, List.get?_eq_getElem?, List.getElem?_set_self hlt, hlt]
    · have hle : w.temps.length ≤ o := Nat.le_of_not_lt hlt
      simp [List.getD, List.get?_eq_getElem?, List.getElem?_eq_none, hle, hlt]
  · simp [List.getD, List.get?_eq_getElem?,
      List.getElem?_set_ne (Ne.symm heq), heq]

theorem PyHeap.invalidateAt_valid_mono (w : PyHeap) (oid o : Nat)
    (h : ((w.invalidateAt oid).temp o).valid = true) :
    (w.temp o).valid = true := by
  rw [PyHeap.temp_invalidateAt] at h
  by_cases hc : o = oid ∧ o < w.temps.length
  · rw [if_pos hc] at h
    simp [TemporaryHandle.invalidate] at h
  · rwa [if_neg hc] at h

theorem PyHeap.invalidateAll_valid_mono (oids : List Nat) :
    ∀ (w : PyHeap) (o : Nat),
      ((w.invalidateAll oids).temp o).valid = true → (w.temp o).valid = true := by
  induction oids with
  | nil => intro w o h; exact h
  | cons x rest ih =>
      intro w o h
      exact PyHeap.invalidateAt_valid_mono w x o (ih (w.invalidateAt x) o h)

theorem PyHeap.invalidateAt_valid_self (w : PyHeap) (oid : Nat) :
    ((w.invalidateAt oid).temp oid).valid = false := by
  rw [PyHeap.temp_invalidateAt]
  by_cases hlt : oid < w.temps.length
  · rw [if_pos (And.intro rfl hlt)]
    rfl
  · rw [if_neg (fun hc => hlt hc.2)]
    unfold PyHeap.temp
    rw [List.getD, List.get?_eq_getElem?,
      List.getElem?_eq_none (Nat.le_of_not_lt hlt)]
    rfl

theorem PyHeap.invalidateAll_valid_false (oids : List Nat) :
    ∀ (w : PyHeap) (o : Nat), o ∈ oids →
      ((w.invalidateAll oids).temp o).valid = false := by
  induction oids with
  | nil => intro w o h; cases h
  | cons x rest ih =>
      intro w o h
      rcases List.mem_cons.mp h with heq | hmem
      · subst heq
        by_cases hval : ((PyHeap.invalidateAll (w.invalidateAt o) rest).temp o).valid = true
        · have := PyHeap.invalidateAll_valid_mono rest (w.invalidateAt o) o hval
          rw [PyHeap.invalidateAt_valid_self] at this
          cases this
        · exact Bool.eq_false_iff.mpr (fun hc => hval hc)
      · exact ih (w.invalidateAt x) o hmem

theorem PyHeap.get_handle_of_invalidateAll (oids : List Nat) (w : PyHeap)
    (o : Nat) (h : o ∈ oids) :
    ((w.invalidateAll oids).temp o).get_handle
      = .error (.attributeError "handle been invalidated") := by
  rw [TemporaryHandle.get_handle,
    if_neg (by rw [PyHeap.invalidateAll_valid_false oids w o h]; simp)]

/-- Engine `PL_open_foreign_frame`: push a frame remembering the current
heap top (term refs past it are reclaimed at the frame's end) and a
snapshot for undoing bindings; returns the frame handle. -/
def PL_open_foreign_frame (e : Engine) : Engine × Nat :=
  ({ e with frames := EFrame.mk e.heap.length e.heap :: e.frames,
            trace := e.trace ++ [FCall.open_foreign_frame] },
   e.frames.length)

/-- Engine `PL_close_foreign_frame`: pop the innermost frame, reclaiming
the term refs created since it was opened but retaining data bindings.
Frames are operated on in stack order (a documented caller obligation). -/
def PL_close_foreign_frame (e : Engine) (_fid : Nat) : Engine :=
  match e.frames with
  | [] => e.emit .close_foreign_frame
  | fr :: rest =>
      { e with heap := e.heap.take fr.heapLen, frames := rest,
               trace := e.trace ++ [FCall.close_foreign_frame] }

/-- Engine `PL_discard_foreign_frame`: pop the innermost frame, undoing
bindings and reclaiming term refs made since it was opened. -/
def PL_discard_foreign_frame (e : Engine) (_fid : Nat) : Engine :=
  match e.frames with
  | [] => e.emit .discard_foreign_frame
  | fr :: rest =>
      { e with heap := fr.snapshot, frames := rest,
               trace := e.trace ++ [FCall.discard_foreign_frame] }

/-- Engine `PL_rewind_foreign_frame`: undo bindings and reclaim term refs
since the innermost frame was opened, keeping the frame open. -/
def PL_rewind_foreign_frame (e : Engine) (_fid : Nat) : Engine :=
  match e.frames with
  | [] => e.emit .rewind_foreign_frame
  | fr :: _ =>
      { e with heap := fr.snapshot,
               trace := e.trace ++ [FCall.rewind_foreign_frame] }

/-- The Python `Frame` object (prolog.py:1558): its own invalidatable
handle, the `discard` flag chosen at construction, and the object ids of
the `TemporaryTerm`s created through `term()`. -/
structure PyFrame where
  h : TemporaryHandle
  discard_on_exit : Bool
  associated : List Nat
deriving Repr, DecidableEq

/-- `Frame.__init__` (prolog.py:1558): open a foreign frame; no tracked
terms yet. -/
def PyFrame.init (e : Engine) (discard : Bool) : Engine × PyFrame :=
  let r := PL_open_foreign_frame e
  (r.1, ⟨⟨r.2, true⟩, discard, []⟩)

/-- `Frame._invalidate_associated_terms` (prolog.py:1626): invalidate every
tracked term and clear the tracking list. -/
def PyFrame.invalidate_associated_terms (w : PyHeap) (f : PyFrame) :
    PyHeap × PyFrame :=
  (w.invalidateAll f.associated, { f with associated := [] })

/-- `Frame.close` (prolog.py:1569): invalidate the tracked terms, then
`PL_close_foreign_frame(self._handle)` — the `_handle` read raises
AttributeError if the frame was already closed or discarded — then
invalidate the frame itself. -/
def PyFrame.close (w : PyHeap) (e : Engine) (f : PyFrame) :
    PyHeap × Engine × PyFrame × Option PyErr :=
  let r := PyFrame.invalidate_associated_terms w f
  match r.2.h.get_handle with
  | .error err => (r.1, e, r.2, some err)
  | .ok hd => (r.1, PL_close_foreign_frame e hd,
      { r.2 with h := r.2.h.invalidate }, none)

/-- `Frame.discard` (prolog.py:1579): like `close` but undoing bindings. -/
def PyFrame.discard (w : PyHeap) (e : Engine) (f : PyFrame) :
    PyHeap × Engine × PyFrame × Option PyErr :=
  let r := PyFrame.invalidate_associated_terms w f
  match r.2.h.get_handle with
  | .error err => (r.1, e, r.2, some err)
  | .ok hd => (r.1, PL_discard_foreign_frame e hd,
      { r.2 with h := r.2.h.invalidate }, none)

/-- `Frame.rewind` (prolog.py:1589): invalidate the tracked terms and
rewind the foreign frame; the frame's own handle is not invalidated. -/
def PyFrame.rewind (w : PyHeap) (e : Engine) (f : PyFrame) :
    PyHeap × Engine × PyFrame × Option PyErr :=
  let r := PyFrame.invalidate_associated_terms w f
  match r.2.h.get_handle with
  | .error err => (r.1, e, r.2, some err)
  | .ok hd => (r.1, PL_rewind_foreign_frame e hd, r.2, none)

/-- `Frame.term` (prolog.py:1598): a fresh `TemporaryTerm` — a new term
ref wrapped with a validity flag — tracked by the frame for invalidation;
returns its object id. -/
def PyFrame.term (w : PyHeap) (e : Engine) (f : PyFrame) :
    PyHeap × Engine × PyFrame × Nat :=
  let r := PL_new_term_ref e
  (⟨w.temps ++ [⟨r.2, true⟩]⟩, r.1,
   { f with associated := f.associated ++ [w.temps.length] }, w.temps.length)

theorem PyFrame.rewind_of_valid (w : PyHeap) (e : Engine) (f : PyFrame)
    (h : f.h.valid = true) :
    PyFrame.rewind w e f
      = (w.invalidateAll f.associated,
         PL_rewind_foreign_frame e f.h.handle,
         { f with associated := [] }, none) := by
  simp [PyFrame.rewind, PyFrame.invalidate_associated_terms,
    TemporaryHandle.get_handle, h]

theorem PyFrame.close_of_valid (w : PyHeap) (e : Engine) (f : PyFrame)
    (h : f.h.valid = true) :
    PyFrame.close w e f
      = (w.invalidateAll f.associated,
         PL_close_foreign_frame e f.h.handle,
         { f with associated := [], h := f.h.invalidate }, none) := by
  simp [PyFrame.close, PyFrame.invalidate_associated_terms,
    TemporaryHandle.get_handle, h]

theorem PyFrame.discard_of_valid (w : PyHeap) (e : Engine) (f : PyFrame)
    (h : f.h.valid = true) :
    PyFrame.discard w e f
      = (w.invalidateAll f.associated,
         PL_discard_foreign_frame e f.h.handle,
         { f with associated := [], h := f.h.invalidate }, none) := by
  simp [PyFrame.discard, PyFrame.invalidate_associated_terms,
    TemporaryHandle.get_handle, h]

theorem PyFrame.close_of_invalid (w : PyHeap) (e : Engine) (f : PyFrame)
    (h : f.h.valid = false) :
    (PyFrame.close w e f).2.2.2
      = some (.attributeError "handle been invalidated") := by
  simp [PyFrame.close, PyFrame.invalidate_associated_terms,
    TemporaryHandle.get_handle, h]

theorem PyFrame.discard_of_invalid (w : PyHeap) (e : Engine) (f : PyFrame)
    (h : f.h.valid = false) :
    (PyFrame.discard w e f).2.2.2
      = some (.attributeError "handle been invalidated") := by
  simp [PyFrame.discard, PyFrame.invalidate_associated_terms,
    TemporaryHandle.get_handle, h]

theorem PyFrame.rewind_of_invalid (w : PyHeap) (e : Engine) (f : PyFrame)
    (h : f.h.valid = false) :
    (PyFrame.rewind w e f).2.2.2
      = some (.attributeError "handle been invalidated") := by
  simp [PyFrame.rewind, PyFrame.invalidate_associated_terms,
    TemporaryHandle.get_handle, h]

/-- C2: for every open `Frame`, `rewind()` succeeds, invalidates every
term previously obtained through `frame.term()` (accessing one afterwards
raises the invalidated-handle AttributeError), and leaves the frame itself
open and reusable: its handle is unchanged and a subsequent `rewind()`,
`close()` or `discard()` (and `term()`, which cannot fail) still succeed.
`close()` and `discard()` invalidate both the tracked terms and the frame
itself, so calling `close()`, `discard()` or `rewind()` on an
already-closed or already-discarded frame raises the invalidated-handle
error rather than silently doing nothing. -/
theorem c2_frame_rewind_close_discard (w : PyHeap) (e : Engine)
    (f : PyFrame) (hopen : f.h.valid = true) :
    -- rewind succeeds, keeps the frame handle intact
    (PyFrame.rewind w e f).2.2.2 = none ∧
    (PyFrame.rewind w e f).2.2.1.h = f.h ∧
    -- rewind invalidates every tracked term
    (∀ oid ∈ f.associated,
      ((PyFrame.rewind w e f).1.temp oid).get_handle
        = .error (.attributeError "handle been invalidated")) ∧
    -- the frame is reusable after rewind
    (∀ (w1 : PyHeap) (e1 : Engine),
      (PyFrame.rewind w1 e1 (PyFrame.rewind w e f).2.2.1).2.2.2 = none ∧
      (PyFrame.close w1 e1 (PyFrame.rewind w e f).2.2.1).2.2.2 = none ∧
      (PyFrame.discard w1 e1 (PyFrame.rewind w e f).2.2.1).2.2.2 = none) ∧
    -- close and discard invalidate the frame and the tracked terms
    (PyFrame.close w e f).2.2.2 = none ∧
    (PyFrame.close w e f).2.2.1.h.valid = false ∧
    (∀ oid ∈ f.associated,
      ((PyFrame.close w e f).1.temp oid).get_handle
        = .error (.attributeError "handle been invalidated")) ∧
    (PyFrame.discard w e f).2.2.2 = none ∧
    (PyFrame.discard w e f).2.2.1.h.valid = false ∧
    (∀ oid ∈ f.associated,
      ((PyFrame.discard w e f).1.temp oid).get_handle
        = .error (.attributeError "handle been invalidated")) ∧
    -- lifecycle methods on a closed or discarded frame raise
    (∀ (g : PyFrame), g.h.valid = false →
      (PyFrame.close w e g).2.2.2
        = some (.attributeError "handle been invalidated") ∧
      (PyFrame.discard w e g).2.2.2
        = some (.attributeError "handle been invalidated") ∧
      (PyFrame.rewind w e g).2.2.2
        = some (.attributeError "handle been invalidated")) := by
  rw [PyFrame.rewind_of_valid w e f hopen, PyFrame.close_of_valid w e f hopen,
    PyFrame.discard_of_valid w e f hopen]
  dsimp only
  refine ⟨rfl, rfl, ?_, ?_, rfl, rfl, ?_, rfl, rfl, ?_, ?_⟩
  · intro oid hmem
    exact PyHeap.get_handle_of_invalidateAll f.associated w oid hmem
  · intro w1 e1
    refine ⟨?_, ?_, ?_⟩
    · rw [PyFrame.rewind_of_valid w1 e1 ⟨f.h, f.discard_on_exit, []⟩ hopen]
    · rw [PyFrame.close_of_valid w1 e1 ⟨f.h, f.discard_on_exit, []⟩ hopen]
    · rw [PyFrame.discard_of_valid w1 e1 ⟨f.h, f.discard_on_exit, []⟩ hopen]
  · intro oid hmem
    exact PyHeap.get_handle_of_invalidateAll f.associated w oid hmem
  · intro oid hmem
    exact PyHeap.get_handle_of_invalidateAll f.associated w oid hmem
  · intro g hg
    exact ⟨PyFrame.close_of_invalid w e g hg,
      PyFrame.discard_of_invalid w e g hg,
      PyFrame.rewind_of_invalid w e g hg⟩

/-- A concrete world for the frame and query witnesses: two valid
temporary terms. -/
def heapW : PyHeap := ⟨[⟨0, true⟩, ⟨1, true⟩]⟩

/-- A concrete open frame tracking temporary terms 0 and 1. -/
def frameW : PyFrame := ⟨⟨0, true⟩, false, [0, 1]⟩

/-- Witness for C2: the frame lifecycle at a concrete open frame. -/
theorem c2_frame_rewind_close_discard_witness :
    frameW.h.valid = true ∧
    (PyFrame.rewind heapW engA frameW).2.2.2 = none ∧
    ((PyFrame.rewind heapW engA frameW).1.temp 0).get_handle
      = .error (.attributeError "handle been invalidated") ∧
    (PyFrame.close heapW engA
      (PyFrame.rewind heapW engA frameW).2.2.1).2.2.2 = none ∧
    (PyFrame.close heapW engA frameW).2.2.1.h.valid = false ∧
    (PyFrame.close heapW engA
      (PyFrame.close heapW engA frameW).2.2.1).2.2.2
      = some (.attributeError "handle been invalidated") := by
  have h := c2_frame_rewind_close_discard heapW engA frameW rfl
  exact ⟨rfl, h.1, h.2.2.1 0 (by decide), (h.2.2.2.1 heapW engA).2.1,
    h.2.2.2.2.2.1,
    (h.2.2.2.2.2.2.2.2.2.2 (PyFrame.close heapW engA frameW).2.2.1
      h.2.2.2.2.2.1).1⟩

/-- Scripted outcome of one `PL_next_solution` call on the open query: a
solution was found, the query is exhausted, or the engine raised an
exception (reported by a non-null `PL_exception`). -/
inductive QOutcome where
  | sol
  | fail
  | exc (t : TermV)
deriving Repr

/-- `_ActiveQuery` (prolog.py:1409): an invalidatable query handle, the
object ids of the `TemporaryTerm`s registered via `bind_temporary_term`
since the last solution, and the engine's scripted remaining behaviour for
this query. -/
structure ActiveQuery where
  h : TemporaryHandle
  bound_temporary_terms : List Nat
  script : List QOutcome
deriving Repr

/-- `_ActiveQuery.bind_temporary_term` (prolog.py:1454). -/
def ActiveQuery.bind_temporary_term (q : ActiveQuery) (oid : Nat) :
    ActiveQuery :=
  { q with bound_temporary_terms := q.bound_temporary_terms ++ [oid] }

/-- `_ActiveQuery._invalidate_bound_temporary_terms` (prolog.py:1464):
invalidate each registered term and clear the registry. -/
def ActiveQuery.invalidate_bound_temporary_terms (w : PyHeap)
    (q : ActiveQuery) : PyHeap × ActiveQuery :=
  (w.invalidateAll q.bound_temporary_terms,
   { q with bound_temporary_terms := [] })

/-- `_ActiveQuery.next_solution` (prolog.py:1428): call
`PL_next_solution(self._handle)` (the `_handle` read raises if the query
was closed), then invalidate every bound temporary term, then — only on a
non-success — consult `PL_exception` and raise `PrologException` wrapping
the pending exception term if there is one; otherwise report the success
boolean. -/
def ActiveQuery.next_solution (w : PyHeap) (q : ActiveQuery) :
    PyHeap × ActiveQuery × Except PyErr Bool :=
  match q.h.get_handle with
  | .error err => (w, q, .error err)
  | .ok _ =>
    let outcome := q.script.headD QOutcome.fail
    let r := ActiveQuery.invalidate_bound_temporary_terms w q
    let q1 := { r.2 with script := q.script.tail }
    match outcome with
    | .sol => (r.1, q1, .ok true)
    | .fail => (r.1, q1, .ok false)
    | .exc t => (r.1, q1, .error (.prologException t))

/-- Engine `PL_close_query`: release the foreign query context. -/
def PL_close_query (e : Engine) (_qid : Nat) : Engine :=
  e.emit .close_query

/-- `_ActiveQuery.close` (prolog.py:1469): `PL_close_query(self._handle)`
— the `_handle` read raises AttributeError if already closed — then
`_invalidate()`. -/
def ActiveQuery.close (e : Engine) (q : ActiveQuery) :
    Engine × ActiveQuery × Option PyErr :=
  match q.h.get_handle with
  | .error err => (e, q, some err)
  | .ok hd => (PL_close_query e hd, { q with h := q.h.invalidate }, none)

/-- C3: every `next_solution()` call on an open query invalidates all
`TemporaryTerm`s registered via `bind_temporary_term` since the previous
call — accessing one afterwards raises the invalidated-handle
AttributeError, whatever the call's outcome — and the call returns `True`
when the engine finds a solution, `False` on exhaustion, and raises
`PrologException` carrying the engine's pending exception term when the
engine raised one during the attempt. -/
theorem c3_next_solution_contract (w : PyHeap) (q : ActiveQuery)
    (hopen : q.h.valid = true) :
    (∀ oid ∈ q.bound_temporary_terms,
      ((ActiveQuery.next_solution w q).1.temp oid).get_handle
        = .error (.attributeError "handle been invalidated")) ∧
    (q.script.headD QOutcome.fail = QOutcome.sol →
      (ActiveQuery.next_solution w q).2.2 = .ok true) ∧
    (q.script.headD QOutcome.fail = QOutcome.fail →
      (ActiveQuery.next_solution w q).2.2 = .ok false) ∧
    (∀ t : TermV, q.script.headD QOutcome.fail = QOutcome.exc t →
      (ActiveQuery.next_solution w q).2.2
        = .error (.prologException t)) := by
  have hstep : ActiveQuery.next_solution w q
      = (let outcome := q.script.headD QOutcome.fail
         let r := ActiveQuery.invalidate_bound_temporary_terms w q
         let q1 := { r.2 with script := q.script.tail }
         match outcome with
         | .sol => (r.1, q1, .ok true)
         | .fail => (r.1, q1, .ok false)
         | .exc t => (r.1, q1, .error (.prologException t))) := by
    unfold ActiveQuery.next_solution
    rw [TemporaryHandle.get_handle, if_pos hopen]
  rw [hstep]
  cases houtcome : q.script.headD QOutcome.fail with
  | sol =>
      refine ⟨?_, fun _ => rfl, ?_, ?_⟩
      · intro oid hmem
        exact PyHeap.get_handle_of_invalidateAll _ w oid hmem
      · intro hc; exact QOutcome.noConfusion hc
      · intro t hc; exact QOutcome.noConfusion hc
  | fail =>
      refine ⟨?_, ?_, fun _ => rfl, ?_⟩
      · intro oid hmem
        exact PyHeap.get_handle_of_invalidateAll _ w oid hmem
      · intro hc; exact QOutcome.noConfusion hc
      · intro t hc; exact QOutcome.noConfusion hc
  | exc t0 =>
      refine ⟨?_, ?_, ?_, ?_⟩
      · intro oid hmem
        exact PyHeap.get_handle_of_invalidateAll _ w oid hmem
      · intro hc; exact QOutcome.noConfusion hc
      · intro hc; exact QOutcome.noConfusion hc
      · intro t hc
        cases hc
        rfl

/-- Witness for C3: a concrete open query over `heapW` with temporary
terms 0 and 1 bound; one solution, then exhaustion, then an exception. -/
theorem c3_next_solution_contract_witness :
    ((⟨⟨0, true⟩, [0, 1], [QOutcome.sol]⟩ : ActiveQuery).h.valid = true ∧
     ((ActiveQuery.next_solution heapW
        ⟨⟨0, true⟩, [0, 1], [QOutcome.sol]⟩).1.temp 1).get_handle
       = .error (.attributeError "handle been invalidated") ∧
     (ActiveQuery.next_solution heapW
        ⟨⟨0, true⟩, [0, 1], [QOutcome.sol]⟩).2.2 = .ok true) ∧
    (ActiveQuery.next_solution heapW
       ⟨⟨0, true⟩, [], []⟩).2.2 = .ok false ∧
    (ActiveQuery.next_solution heapW
       ⟨⟨0, true⟩, [], [QOutcome.exc (TermV.atom "err")]⟩).2.2
      = .error (.prologException (TermV.atom "err")) := by
  have h1 := c3_next_solution_contract heapW ⟨⟨0, true⟩, [0, 1], [QOutcome.sol]⟩ rfl
  have h2 := c3_next_solution_contract heapW ⟨⟨0, true⟩, [], []⟩ rfl
  have h3 := c3_next_solution_contract heapW
    ⟨⟨0, true⟩, [], [QOutcome.exc (TermV.atom "err")]⟩ rfl
  exact ⟨⟨rfl, h1.1 1 (by decide), h1.2.1 rfl⟩, h2.2.2.1 rfl,
    h3.2.2.2 (TermV.atom "err") rfl⟩

/-- C4: the invalidatable-handle contract shared by `TemporaryTerm`,
`Frame` and `_ActiveQuery`: once invalidated, every handle access raises
the invalidated-handle AttributeError; invalidation is one-way (neither
`_set_handle` nor `_invalidate` can restore validity) and invalidating an
already-invalid handle is a no-op; consequently `_ActiveQuery.close()`
succeeds once and a second call fails through this contract. -/
theorem c4_invalidation_one_way (h : TemporaryHandle) (v : Nat)
    (e : Engine) (q : ActiveQuery) :
    (h.valid = false →
      h.get_handle = .error (.attributeError "handle been invalidated")) ∧
    h.invalidate.valid = false ∧
    h.invalidate.invalidate = h.invalidate ∧
    (h.set_handle v).valid = h.valid ∧
    h.invalidate.get_handle
      = .error (.attributeError "handle been invalidated") ∧
    (q.h.valid = true →
      (ActiveQuery.close e q).2.2 = none ∧
      (ActiveQuery.close (ActiveQuery.close e q).1
        (ActiveQuery.close e q).2.1).2.2
        = some (.attributeError "handle been invalidated")) := by
  refine ⟨?_, rfl, rfl, rfl, rfl, ?_⟩
  · intro hinv
    rw [TemporaryHandle.get_handle, if_neg (by rw [hinv]; simp)]
  · intro hopen
    have hstep : ActiveQuery.close e q
        = (PL_close_query e q.h.handle, { q with h := q.h.invalidate },
           none) := by
      unfold ActiveQuery.close
      rw [TemporaryHandle.get_handle, if_pos hopen]
    rw [hstep]
    refine ⟨rfl, ?_⟩
    show (ActiveQuery.close _ { q with h := q.h.invalidate }).2.2 = _
    unfold ActiveQuery.close
    rw [TemporaryHandle.get_handle]
    simp [TemporaryHandle.invalidate]

/-- Witness for C4: concrete invalid handle access and concrete
double-close of an open query. -/
theorem c4_invalidation_one_way_witness :
    ((⟨5, false⟩ : TemporaryHandle).valid = false ∧
     (⟨5, false⟩ : TemporaryHandle).get_handle
       = .error (.attributeError "handle been invalidated")) ∧
    ((⟨7, true⟩ : TemporaryHandle).invalidate.invalidate
       = (⟨7, true⟩ : TemporaryHandle).invalidate) ∧
    ((⟨⟨3, true⟩, [], []⟩ : ActiveQuery).h.valid = true ∧
     (ActiveQuery.close engA ⟨⟨3, true⟩, [], []⟩).2.2 = none ∧
     (ActiveQuery.close (ActiveQuery.close engA ⟨⟨3, true⟩, [], []⟩).1
       (ActiveQuery.close engA ⟨⟨3, true⟩, [], []⟩).2.1).2.2
       = some (.attributeError "handle been invalidated")) := by
  have h1 := c4_invalidation_one_way (⟨5, false⟩ : TemporaryHandle) 0 engA
    ⟨⟨3, true⟩, [], []⟩
  have h2 := c4_invalidation_one_way (⟨7, true⟩ : TemporaryHandle) 0 engA
    ⟨⟨3, true⟩, [], []⟩
  exact ⟨⟨rfl, h1.1 rfl⟩, h2.2.2.1,
    ⟨rfl, (h1.2.2.2.2.2 rfl).1, (h1.2.2.2.2.2 rfl).2⟩⟩

/-- `PL_record(term)`: serialize the term's current value into the
persistent record database, returning the record handle. -/
def PL_record (e : Engine) (r : Nat) : Engine × Nat :=
  ({ e with records := e.records ++ [some (e.read r)],
            trace := e.trace ++ [FCall.record] },
   e.records.length)

/-- `PL_recorded(record, t)`: instantiate a fresh copy of the recorded
value into term ref `t` — the copy's variables are freshly renamed, as the
engine copies the record to the global stack — returning false when the
persistent store cannot satisfy the request (modelled as a missing
entry). -/
def PL_recorded (e : Engine) (recId dst : Nat) : Engine × Bool :=
  match e.records.getD recId none with
  | none => (e.emit .recorded, false)
  | some v => ((e.write dst (v.renameVars e.nextVar)).emit .recorded, true)

/-- `TermRecord.__init__` (prolog.py:1496). -/
def TermRecord.init (e : Engine) (term : Nat) : Engine × Nat :=
  PL_record e term

/-- `TermRecord.get` (prolog.py:1504): a fresh `Term()`, `PL_recorded`
into it; raises `PrologMemoryError` if the store cannot satisfy the
retrieval. -/
def TermRecord.get (e : Engine) (recId : Nat) : Engine × Except PyErr Nat :=
  let t := PL_new_term_ref e
  let r := PL_recorded t.1 recId t.2
  if r.2 then (r.1, .ok t.2) else (r.1, .error .prologMemoryError)

/-- A concrete engine whose single term ref holds an unbound variable. -/
def engB : Engine :=
  { heap := [TermV.var 0], records := [], frames := [], nextVar := 1,
    callResult := true, trace := [] }

/-- Counterexample to C5 as stated: recording a `Term` that holds an
unbound variable and retrieving it yields a fresh variable, and the
engine's structural equality `==` distinguishes distinct variables, so
`TermRecord(t).get() == t` is false for the variable term of `engB`. -/
theorem c5_term_record_var_not_equal :
    (TermRecord.get (TermRecord.init engB 0).1 (TermRecord.init engB 0).2).2
      = .ok 1 ∧
    Term.eq (TermRecord.get (TermRecord.init engB 0).1
      (TermRecord.init engB 0).2).1 1 0 = false := by
  constructor <;> rfl

/-- C5 (amended): for every `Term` holding a ground value, the
`TermRecord` round trip restores exactly the value recorded — in
particular the engine's structural equality between the retrieved term and
any term still holding the recorded value succeeds — and this durability
is unaffected by closing, discarding or rewinding frames, which never
touch the record database; when the store cannot satisfy the retrieval,
`get()` raises `PrologMemoryError`. -/
theorem c5_term_record_ground_roundtrip (e e1 : Engine) (t recId fid : Nat)
    (v : TermV) (hg : v.isGround = true) :
    -- recording stores the term's current value
    ((TermRecord.init e t).1.records.getD (TermRecord.init e t).2 none
      = some (e.read t)) ∧
    -- frame close/discard/rewind leave the record database untouched
    (PL_close_foreign_frame e1 fid).records = e1.records ∧
    (PL_discard_foreign_frame e1 fid).records = e1.records ∧
    (PL_rewind_foreign_frame e1 fid).records = e1.records ∧
    (∀ (w : PyHeap) (f : PyFrame),
      (PyFrame.close w e1 f).2.1.records = e1.records ∧
      (PyFrame.discard w e1 f).2.1.records = e1.records ∧
      (PyFrame.rewind w e1 f).2.1.records = e1.records) ∧
    -- retrieval of a stored ground value restores it exactly
    (e1.records.getD recId none = some v →
      (TermRecord.get e1 recId).2 = .ok e1.heap.length ∧
      (TermRecord.get e1 recId).1.read e1.heap.length = v ∧
      (∀ s, s < e1.heap.length → e1.read s = v →
        Term.eq (TermRecord.get e1 recId).1 e1.heap.length s = true)) ∧
    -- retrieval failure raises PrologMemoryError
    (e1.records.getD recId none = none →
      (TermRecord.get e1 recId).2 = .error .prologMemoryError) := by
  refine ⟨?_, ?_, ?_, ?_, ?_, ?_, ?_⟩
  · show (e.records ++ [some (e.read t)]).getD e.records.length none
      = some (e.read t)
    simp [List.getD, List.getElem?_append_right (Nat.le_refl e.records.length)]
  · unfold PL_close_foreign_frame
    cases e1.frames <;> rfl
  · unfold PL_discard_foreign_frame
    cases e1.frames <;> rfl
  · unfold PL_rewind_foreign_frame
    cases e1.frames <;> rfl
  · intro w f
    refine ⟨?_, ?_, ?_⟩
    · unfold PyFrame.close
      dsimp only
      cases (PyFrame.invalidate_associated_terms w f).2.h.get_handle with
      | error err => rfl
      | ok hd =>
          show (PL_close_foreign_frame e1 hd).records = e1.records
          unfold PL_close_foreign_frame
          cases e1.frames <;> rfl
    · unfold PyFrame.discard
      dsimp only
      cases (PyFrame.invalidate_associated_terms w f).2.h.get_handle with
      | error err => rfl
      | ok hd =>
          show (PL_discard_foreign_frame e1 hd).records = e1.records
          unfold PL_discard_foreign_frame
          cases e1.frames <;> rfl
    · unfold PyFrame.rewind
      dsimp only
      cases (PyFrame.invalidate_associated_terms w f).2.h.get_handle with
      | error err => rfl
      | ok hd =>
          show (PL_rewind_foreign_frame e1 hd).records = e1.records
          unfold PL_rewind_foreign_frame
          cases e1.frames <;> rfl
  · intro hstored
    have hrecs : (PL_new_term_ref e1).1.records.getD recId none = some v :=
      hstored
    have hstep : PL_recorded (PL_new_term_ref e1).1 recId (PL_new_term_ref e1).2
        = (((PL_new_term_ref e1).1.write (PL_new_term_ref e1).2
            (v.renameVars (PL_new_term_ref e1).1.nextVar)).emit .recorded,
           true) := by
      unfold PL_recorded
      rw [hrecs]
    have hlt : e1.heap.length < (PL_new_term_ref e1).1.heap.length := by
      rw [PL_new_term_ref_heap_length]; omega
    have hget : TermRecord.get e1 recId
        = (((PL_new_term_ref e1).1.write (PL_new_term_ref e1).2
            (v.renameVars (PL_new_term_ref e1).1.nextVar)).emit .recorded,
           .ok (PL_new_term_ref e1).2) := by
      unfold TermRecord.get
      dsimp only
      rw [hstep]
      exact rfl
    rw [hget]
    have hreadv : (((PL_new_term_ref e1).1.write (PL_new_term_ref e1).2
        (v.renameVars (PL_new_term_ref e1).1.nextVar)).emit
          FCall.recorded).read e1.heap.length = v := by
      show (((PL_new_term_ref e1).1.write e1.heap.length
        (v.renameVars (PL_new_term_ref e1).1.nextVar)).emit
          FCall.recorded).read e1.heap.length = v
      rw [read_write_emit_self _ _ _ _ hlt, renameVars_of_isGround _ _ hg]
    refine ⟨rfl, hreadv, ?_⟩
    intro s hs hsv
    have hreads : (((PL_new_term_ref e1).1.write (PL_new_term_ref e1).2
        (v.renameVars (PL_new_term_ref e1).1.nextVar)).emit
          FCall.recorded).read s = v := by
      show (((PL_new_term_ref e1).1.write e1.heap.length
        (v.renameVars (PL_new_term_ref e1).1.nextVar)).emit
          FCall.recorded).read s = v
      rw [Engine.emit_read, Engine.read_write_ne _ _ (by omega)]
      rw [PL_new_term_ref_read_of_lt e1 hs, hsv]
    rw [Term.eq, hreadv, hreads]
    exact TermV.beq_refl v
  · intro hmissing
    have hrecs : (PL_new_term_ref e1).1.records.getD recId none = none :=
      hmissing
    have hstep : PL_recorded (PL_new_term_ref e1).1 recId (PL_new_term_ref e1).2
        = ((PL_new_term_ref e1).1.emit .recorded, false) := by
      unfold PL_recorded
      rw [hrecs]
    unfold TermRecord.get
    dsimp only
    rw [hstep]
    exact rfl

/-- A concrete engine whose single term ref holds the atom `a`. -/
def engC : Engine :=
  { heap := [TermV.atom "a"], records := [], frames := [], nextVar := 1,
    callResult := true, trace := [] }

/-- Witness for C5 (amended): recording the term holding the ground atom
`a` and retrieving it restores the value, and the retrieved term compares
equal (engine `==`) to the original. -/
theorem c5_term_record_ground_roundtrip_witness :
    (TermV.atom "a").isGround = true ∧
    ((TermRecord.init engC 0).1.records.getD (TermRecord.init engC 0).2 none
      = some (engC.read 0)) ∧
    (TermRecord.get (TermRecord.init engC 0).1 0).2
      = .ok (TermRecord.init engC 0).1.heap.length ∧
    (TermRecord.get (TermRecord.init engC 0).1 0).1.read
      (TermRecord.init engC 0).1.heap.length = TermV.atom "a" ∧
    Term.eq (TermRecord.get (TermRecord.init engC 0).1 0).1
      (TermRecord.init engC 0).1.heap.length 0 = true := by
  have h := c5_term_record_ground_roundtrip engC (TermRecord.init engC 0).1
    0 0 0 (TermV.atom "a") rfl
  have hr := h.2.2.2.2.2.1 rfl
  exact ⟨rfl, h.1, hr.1, hr.2.1, hr.2.2 0 (by decide) rfl⟩

/-- The wrapper-side view of a resolved `Predicate` (prolog.py:378):
identified by name, arity and module, as reported by the engine's
`PL_predicate_info`. -/
structure PrologPredicate where
  name : String
  arity : Nat
  moduleName : String
deriving Repr, DecidableEq

/-- `Predicate.get_info` (prolog.py:468): `PL_predicate_info`, plus
`Atom._from_handle` on the returned name atom — which calls
`PL_register_atom` — to build the `Info` named tuple. -/
def Predicate.get_info (e : Engine) (p : PrologPredicate) :
    Engine × String × Nat × String :=
  ((e.emit .predicate_info).emit .register_atom,
   p.name, p.arity, p.moduleName)

/-- `Predicate.check_argument_match` (prolog.py:483): compare the length
of the argument `TermList` with the arity from `get_info`, raising a
`ValueError` stating both numbers on mismatch. -/
def Predicate.check_argument_match (e : Engine) (p : PrologPredicate)
    (arguments : TermList) : Engine × Except PyErr Unit :=
  let number_of_arguments := arguments.length
  let r := Predicate.get_info e p
  let arity := r.2.2.1
  if number_of_arguments ≠ arity then
    (r.1, .error (.valueError
      ("number of arguments (" ++ toString number_of_arguments ++
       ") does not match predicate arity (" ++ toString arity ++ ")")))
  else (r.1, .ok ())

/-- `PL_call_predicate`: the engine's call-once proof primitive; its
outcome is scripted by `Engine.callResult`. -/
def PL_call_predicate (e : Engine) (_p : PrologPredicate) (_args : TermList) :
    Engine × Bool :=
  (e.emit .call_predicate, e.callResult)

/-- `Predicate.__call__` (prolog.py:427), positional-arguments path
(`arglist=None`, `check=False`): build a `TermList` from the arguments,
run `check_argument_match`, then `PL_call_predicate`. -/
def Predicate.call (e : Engine) (p : PrologPredicate)
    (arguments : List Nat) : Engine × Except PyErr Bool :=
  let a := TermList.from_terms e arguments
  let c := Predicate.check_argument_match a.1 p a.2
  match c.2 with
  | .error err => (c.1, .error err)
  | .ok _ =>
    let r := PL_call_predicate c.1 p a.2
    (r.1, .ok r.2)

/-- The passive `Query` descriptor (prolog.py:1297): predicate plus
argument list, validated eagerly at construction. -/
structure QueryDescr where
  predicate : PrologPredicate
  arglist : TermList
deriving Repr, DecidableEq

/-- `Query.__init__` (prolog.py:1301), positional-arguments path: build a
`TermList` from the arguments, then `check_argument_match` eagerly — no
query is opened yet (`PL_open_query` happens only in `__enter__`). -/
def Query.init (e : Engine) (p : PrologPredicate) (arguments : List Nat) :
    Engine × Except PyErr QueryDescr :=
  let a := TermList.from_terms e arguments
  let c := Predicate.check_argument_match a.1 p a.2
  match c.2 with
  | .error err => (c.1, .error err)
  | .ok _ => (c.1, .ok (QueryDescr.mk p a.2))

/-- A concrete binary predicate for the C7 runs. -/
def pSucc : PrologPredicate := ⟨"succ", 2, "user"⟩

/-- Counterexample to C7 as stated: calling the arity-2 predicate with one
argument does raise the arity `ValueError`, but foreign calls have already
happened by then — the trace of the failing call contains the term-ref
allocation for the argument list (`PL_new_term_refs`) and the predicate
introspection (`PL_predicate_info`, with its `PL_register_atom` side
effect) — so the failure does not occur "before any foreign call /
foreign-engine side effect". -/
theorem c7_foreign_calls_before_check :
    (Predicate.call engA pSucc [0]).2
      = .error (.valueError
          "number of arguments (1) does not match predicate arity (2)") ∧
    FCall.new_term_refs 1 ∈ (Predicate.call engA pSucc [0]).1.trace ∧
    FCall.predicate_info ∈ (Predicate.call engA pSucc [0]).1.trace ∧
    FCall.register_atom ∈ (Predicate.call engA pSucc [0]).1.trace := by
  refine ⟨?_, ?_, ?_, ?_⟩
  · rfl
  · decide
  · decide
  · decide

theorem from_terms_trace_only (e : Engine) (terms : List Nat) :
    (TermList.from_terms e terms).1.trace
      = e.trace ++ FCall.new_term_refs terms.length ::
          List.replicate terms.length FCall.put_term := by
  unfold TermList.from_terms PL_new_term_refs
  dsimp only
  rw [fromTermsLoop_trace]
  simp

/-- C7 (amended): `check_argument_match` raises a `ValueError` stating
both the argument count and the predicate arity whenever they differ; in
`Predicate.__call__` it runs before the foreign proof primitive
(`PL_call_predicate`) and in `Query.__init__` it runs eagerly, before any
query is opened (`PL_open_query`), so a mismatched call or query fails
with no proof attempt or binding side effect — though the term-ref
allocation for the argument list and the predicate-introspection foreign
calls (`PL_predicate_info` / `PL_register_atom`) do happen first. -/
theorem c7_check_argument_match_before_proof (e : Engine)
    (p : PrologPredicate) (arguments : List Nat) (lst : TermList)
    (hmis : arguments.length ≠ p.arity) (hmis2 : lst.length ≠ p.arity) :
    (Predicate.check_argument_match e p lst).2
      = .error (.valueError
          ("number of arguments (" ++ toString lst.length ++
           ") does not match predicate arity (" ++ toString p.arity ++ ")")) ∧
    (Predicate.call e p arguments).2
      = .error (.valueError
          ("number of arguments (" ++ toString arguments.length ++
           ") does not match predicate arity (" ++ toString p.arity ++ ")")) ∧
    FCall.call_predicate ∉
      (Predicate.call e p arguments).1.trace.drop e.trace.length ∧
    (Query.init e p arguments).2
      = .error (.valueError
          ("number of arguments (" ++ toString arguments.length ++
           ") does not match predicate arity (" ++ toString p.arity ++ ")")) ∧
    FCall.open_query ∉
      (Query.init e p arguments).1.trace.drop e.trace.length := by
  have hcheck : ∀ (e2 : Engine) (l2 : TermList), l2.length ≠ p.arity →
      Predicate.check_argument_match e2 p l2
        = ((e2.emit .predicate_info).emit .register_atom,
           .error (.valueError
             ("number of arguments (" ++ toString l2.length ++
              ") does not match predicate arity (" ++ toString p.arity ++
              ")"))) := by
    intro e2 l2 hne
    unfold Predicate.check_argument_match Predicate.get_info
    dsimp only
    rw [if_pos hne]
  have hlen : (TermList.from_terms e arguments).2.length = arguments.length :=
    rfl
  have hcall : Predicate.call e p arguments
      = ((((TermList.from_terms e arguments).1.emit
            .predicate_info).emit .register_atom),
         .error (.valueError
           ("number of arguments (" ++ toString arguments.length ++
            ") does not match predicate arity (" ++ toString p.arity ++
            ")"))) := by
    unfold Predicate.call
    dsimp only
    rw [hcheck (TermList.from_terms e arguments).1
      (TermList.from_terms e arguments).2 (by rw [hlen]; exact hmis)]
    exact rfl
  have hquery : Query.init e p arguments
      = ((((TermList.from_terms e arguments).1.emit
            .predicate_info).emit .register_atom),
         .error (.valueError
           ("number of arguments (" ++ toString arguments.length ++
            ") does not match predicate arity (" ++ toString p.arity ++
            ")"))) := by
    unfold Query.init
    dsimp only
    rw [hcheck (TermList.from_terms e arguments).1
      (TermList.from_terms e arguments).2 (by rw [hlen]; exact hmis)]
    exact rfl
  have htrace : (((TermList.from_terms e arguments).1.emit
      .predicate_info).emit .register_atom).trace
      = e.trace ++ (FCall.new_term_refs arguments.length ::
          List.replicate arguments.length FCall.put_term ++
          [FCall.predicate_info, FCall.register_atom]) := by
    show (TermList.from_terms e arguments).1.trace ++ [FCall.predicate_info]
        ++ [FCall.register_atom] = _
    rw [from_terms_trace_only]
    simp
  refine ⟨?_, ?_, ?_, ?_, ?_⟩
  · rw [hcheck e lst hmis2]
  · rw [hcall]
  · rw [hcall]
    show FCall.call_predicate ∉
      (((TermList.from_terms e arguments).1.emit
        .predicate_info).emit .register_atom).trace.drop e.trace.length
    rw [htrace, List.drop_left]
    simp [List.mem_replicate]
  · rw [hquery]
  · rw [hquery]
    show FCall.open_query ∉
      (((TermList.from_terms e arguments).1.emit
        .predicate_info).emit .register_atom).trace.drop e.trace.length
    rw [htrace, List.drop_left]
    simp [List.mem_replicate]

/-- Witness for C7 (amended): the concrete mismatched call and query. -/
theorem c7_check_argument_match_before_proof_witness :
    (([0] : List Nat).length ≠ pSucc.arity ∧
     (⟨0, 1⟩ : TermList).length ≠ pSucc.arity) ∧
    (Predicate.call engA pSucc [0]).2
      = .error (.valueError
          "number of arguments (1) does not match predicate arity (2)") ∧
    FCall.call_predicate ∉
      (Predicate.call engA pSucc [0]).1.trace.drop engA.trace.length ∧
    (Query.init engA pSucc [0]).2
      = .error (.valueError
          "number of arguments (1) does not match predicate arity (2)") ∧
    FCall.open_query ∉
      (Query.init engA pSucc [0]).1.trace.drop engA.trace.length := by
  have h := c7_check_argument_match_before_proof engA pSucc [0] ⟨0, 1⟩
    (by decide) (by decide)
  exact ⟨⟨by decide, by decide⟩, h.2.1, h.2.2.1, h.2.2.2.1, h.2.2.2.2⟩

/-- The wrapper-side `Atom` (prolog.py:252): wraps an atom handle into the
engine's atom table (`tbl` maps handles to names).  After handle reuse,
distinct handles can carry the same name. -/
structure PyAtom where
  handle : Nat
deriving Repr, DecidableEq

/-- `Atom.get_name` (prolog.py:288): `PL_atom_chars` decoded. -/
def PyAtom.get_name (tbl : List String) (a : PyAtom) : String :=
  tbl.getD a.handle ""

/-- `Atom.__eq__` (prolog.py:279): atoms can have different handles but
the same name, so equality compares names, not handles. -/
def PyAtom.eq (tbl : List String) (a b : PyAtom) : Bool :=
  PyAtom.get_name tbl a == PyAtom.get_name tbl b

/-- `Atom.__hash__` (prolog.py:285): the hash of the name.  CPython's
string hash is an opaque pure function of the string, so the model takes
it as a parameter. -/
def PyAtom.hashWith (strHash : String → Int) (tbl : List String)
    (a : PyAtom) : Int :=
  strHash (PyAtom.get_name tbl a)

/-- C8: for all `Atom`s `a` and `b`, `a == b` holds exactly when their
names are equal strings, and equal names give equal hashes (for the
runtime's string hash, an arbitrary pure function), regardless of whether
the underlying integer handles are equal or distinct. -/
theorem c8_atom_eq_hash_by_name (tbl : List String) (a b : PyAtom) :
    (PyAtom.eq tbl a b = true ↔
      PyAtom.get_name tbl a = PyAtom.get_name tbl b) ∧
    (PyAtom.get_name tbl a = PyAtom.get_name tbl b →
      ∀ strHash : String → Int,
        PyAtom.hashWith strHash tbl a = PyAtom.hashWith strHash tbl b) := by
  constructor
  · unfold PyAtom.eq
    exact beq_iff_eq ..
  · intro hname strHash
    unfold PyAtom.hashWith
    rw [hname]

/-- Witness for C8: an atom table where the distinct handles 0 and 2 both
carry the name `foo`; the two atoms compare equal and hash (here with a
concrete stand-in hash) alike, while handle 1 (`bar`) differs. -/
theorem c8_atom_eq_hash_by_name_witness :
    (PyAtom.eq ["foo", "bar", "foo"] ⟨0⟩ ⟨2⟩ = true ∧
     PyAtom.get_name ["foo", "bar", "foo"] ⟨0⟩
       = PyAtom.get_name ["foo", "bar", "foo"] ⟨2⟩ ∧
     PyAtom.hashWith (fun s => Int.ofNat s.length) ["foo", "bar", "foo"] ⟨0⟩
       = PyAtom.hashWith (fun s => Int.ofNat s.length)
           ["foo", "bar", "foo"] ⟨2⟩) ∧
    PyAtom.eq ["foo", "bar", "foo"] ⟨0⟩ ⟨1⟩ = false := by
  have h02 := c8_atom_eq_hash_by_name ["foo", "bar", "foo"] ⟨0⟩ ⟨2⟩
  have hname : PyAtom.get_name ["foo", "bar", "foo"] ⟨0⟩
      = PyAtom.get_name ["foo", "bar", "foo"] ⟨2⟩ := rfl
  exact ⟨⟨h02.1.mpr hname, hname,
    h02.2 hname (fun s => Int.ofNat s.length)⟩, by decide⟩

/-- A Python value passed as a raw handle; ctypes delivers the engine's
zero/null handle ambiguously as `None`. -/
inductive PyVal where
  | none
  | int (n : Int)
  | str (s : String)
  | float (bits : Nat)
deriving Repr, DecidableEq

/-- The Python runtime type name of a `PyVal`
(`type(handle).__name__`). -/
def PyVal.typeName : PyVal → String
  | .none => "NoneType"
  | .int _ => "int"
  | .str _ => "str"
  | .float _ => "float"

/-- `HandleWrapper._from_handle` (prolog.py:190): `None` — ctypes'
rendering of the zero handle — is undone to 0; any remaining non-int
input raises `ValueError('Handle must be an int, not <type>')`; an int is
accepted as the wrapper's handle. -/
def HandleWrapper.from_handle (handle : PyVal) : Except PyErr Int :=
  let h := if handle = PyVal.none then PyVal.int 0 else handle
  match h with
  | .int n => .ok n
  | v => .error (.valueError ("Handle must be an int, not " ++ v.typeName))

/-- The runtime class of a handle wrapper. -/
inductive WrapperType where
  | atomW | functorW | moduleW | predicateW | termW | termListW | queryW
  | recordW
deriving Repr, DecidableEq

/-- A constructed handle wrapper: runtime type and raw handle. -/
structure Wrapper where
  ty : WrapperType
  handle : Int
deriving Repr, DecidableEq

/-- `HandleWrapper.__eq__` (prolog.py:207): a different runtime type gives
`NotImplemented`, which Python resolves to inequality for distinct
objects; the same type compares the handles. -/
def Wrapper.eq (a b : Wrapper) : Bool :=
  a.ty == b.ty && a.handle == b.handle

/-- Whether a raised error is a Python `TypeError`. -/
def raisedTypeError : Except PyErr Int → Bool
  | .error (.typeError _) => true
  | _ => false

/-- Counterexample to C9 as stated: a non-integer handle (the string
`"x"`) is rejected with a `ValueError`, not a type error
(`TypeError`). -/
theorem c9_from_handle_raises_value_error :
    HandleWrapper.from_handle (PyVal.str "x")
      = .error (.valueError "Handle must be an int, not str") ∧
    raisedTypeError (HandleWrapper.from_handle (PyVal.str "x")) = false := by
  constructor <;> rfl

/-- C9 (amended): `_from_handle` rejects every non-integer input with a
`ValueError` naming the offending type (not a `TypeError` as the spec
says), accepts `None` as the legitimate handle 0 and accepts any integer,
and handle-wrapper equality requires the same runtime type and equal
handle values. -/
theorem c9_from_handle_contract (v : PyVal) (n : Int) (a b : Wrapper) :
    (v ≠ PyVal.none → (∀ m : Int, v ≠ PyVal.int m) →
      HandleWrapper.from_handle v
        = .error (.valueError ("Handle must be an int, not " ++ v.typeName))) ∧
    HandleWrapper.from_handle PyVal.none = .ok 0 ∧
    HandleWrapper.from_handle (PyVal.int n) = .ok n ∧
    (Wrapper.eq a b = true ↔ a.ty = b.ty ∧ a.handle = b.handle) := by
  refine ⟨?_, rfl, ?_, ?_⟩
  · intro hnone hint
    cases v with
    | none => exact absurd rfl hnone
    | int m => exact absurd rfl (hint m)
    | str s =>
        unfold HandleWrapper.from_handle
        rw [if_neg (by simp)]
    | float b2 =>
        unfold HandleWrapper.from_handle
        rw [if_neg (by simp)]
  · unfold HandleWrapper.from_handle
    rw [if_neg (by simp)]
  · unfold Wrapper.eq
    rw [Bool.and_eq_true, beq_iff_eq, beq_iff_eq]

/-- Witness for C9 (amended): concrete rejection of a float input,
acceptance of `None` and of 7, and the equality contract on concrete
wrappers. -/
theorem c9_from_handle_contract_witness :
    (PyVal.float 3 ≠ PyVal.none ∧
     HandleWrapper.from_handle (PyVal.float 3)
       = .error (.valueError "Handle must be an int, not float")) ∧
    HandleWrapper.from_handle PyVal.none = .ok 0 ∧
    HandleWrapper.from_handle (PyVal.int 7) = .ok 7 ∧
    Wrapper.eq ⟨WrapperType.atomW, 5⟩ ⟨WrapperType.termW, 5⟩ = false ∧
    Wrapper.eq ⟨WrapperType.atomW, 5⟩ ⟨WrapperType.atomW, 5⟩ = true := by
  have h := c9_from_handle_contract (PyVal.float 3) 7
    ⟨WrapperType.atomW, 5⟩ ⟨WrapperType.termW, 5⟩
  exact ⟨⟨by decide, h.1 (by decide) (fun m => by simp)⟩, h.2.1, h.2.2.1,
    by decide, by decide⟩

end Swilite
